import Mathlib

/-!
# Verification of `homework.Validate` (src/homework/validator.go)

A shallow embedding of the struct-tag validator and of the standard-library
functions it calls (`strings.Split`, `strings.SplitN`, `strings.TrimSpace`,
`strconv.Atoi`, `strconv.ParseInt`), followed by theorems about them.

Modelling conventions.
* A Go `string` is modelled as the list of its Unicode code points
  (`GoString := List Char`), i.e. strings are assumed to be valid UTF-8, as
  field names always are and struct tags written in source conventionally are.
  `len(s)` / `reflect.Value.Len()` count bytes, so they are modelled by `byteLen`.
* `int` is the 64-bit `int` of the usual targets (`strconv.IntSize = 64`).
* `field.Tag.Get("validate")` is taken as an observation of the field
  (`StructField.Tag`): the reflection facility itself is outside the program.
* An `error` result is `Option _`, with `none` for `nil`.
-/

namespace Homework

/-! ## Strings -/

/-- A Go string, as the sequence of its code points. -/
abbrev GoString := List Char

/-- Number of bytes of the UTF-8 encoding of one code point. -/
def utf8Len (c : Char) : Nat :=
  if c.toNat < 0x80 then 1
  else if c.toNat < 0x800 then 2
  else if c.toNat < 0x10000 then 3
  else 4

/-- Go `len(s)`: the number of bytes of the string. -/
def byteLen : GoString → Nat
  | [] => 0
  | c :: cs => utf8Len c + byteLen cs

/-- Go `unicode.IsSpace`: the code points with the Unicode White_Space property. -/
def isSpace (c : Char) : Bool :=
  let n := c.toNat
  n == 0x09 || n == 0x0A || n == 0x0B || n == 0x0C || n == 0x0D || n == 0x20 ||
  n == 0x85 || n == 0xA0 || n == 0x1680 || (0x2000 ≤ n && n ≤ 0x200A) ||
  n == 0x2028 || n == 0x2029 || n == 0x202F || n == 0x205F || n == 0x3000

/-- Go `strings.TrimLeftFunc(s, unicode.IsSpace)`. -/
def trimLeft : GoString → GoString
  | [] => []
  | c :: cs => if isSpace c then trimLeft cs else c :: cs

/-- Go `strings.TrimRightFunc(s, unicode.IsSpace)`. -/
def trimRight : GoString → GoString
  | [] => []
  | c :: cs =>
    match trimRight cs with
    | [] => if isSpace c then [] else [c]
    | r => c :: r

/-- Go `strings.TrimSpace`: leading and trailing white space removed. -/
def TrimSpace (s : GoString) : GoString := trimRight (trimLeft s)

/-- Go `strings.Cut(s, sep)` for a one-character separator: the text before and
after the first `sep`, or `none` when `sep` does not occur. -/
def cut (sep : Char) : GoString → Option (GoString × GoString)
  | [] => none
  | c :: cs =>
    if c = sep then some ([], cs)
    else match cut sep cs with
      | none => none
      | some (a, b) => some (c :: a, b)

/-- Go `strings.Split(s, sep)` for a one-character separator: all the pieces of
`s` between occurrences of `sep` (one more piece than there are separators). -/
def Split (sep : Char) : GoString → List GoString
  | [] => [[]]
  | c :: cs =>
    if c = sep then [] :: Split sep cs
    else match Split sep cs with
      | [] => [[c]]
      | p :: ps => (c :: p) :: ps

/-- Go `strings.SplitN(s, sep, n)` for a one-character separator and `n ≥ 0`:
at most `n` pieces, the last one being the unsplit remainder. -/
def SplitN (sep : Char) (s : GoString) : Nat → List GoString
  | 0 => []
  | 1 => [s]
  | n + 2 =>
    match cut sep s with
    | none => [s]
    | some (a, b) => a :: SplitN sep b (n + 1)

/-! ## strconv -/

/-- The `Err` of a `*strconv.NumError`. -/
inductive NumError
  | ErrSyntax
  | ErrRange
  | ErrBitSize
  deriving DecidableEq, Repr

/-- Go `strconv.IntSize` on the 64-bit targets. -/
def intSize : Nat := 64

/-- The decimal digit a character stands for, if it is one of `0`..`9`. -/
def digit? (c : Char) : Option Nat :=
  if 48 ≤ c.toNat ∧ c.toNat ≤ 57 then some (c.toNat - 48) else none

/-- Go `uint64` arithmetic: reduction modulo `2^64`. -/
def wrapU64 (n : Nat) : Nat := n % 2 ^ 64

/-- Go `int64` arithmetic: the representative of `z` modulo `2^64` in
`[-2^63, 2^63)`. -/
def wrap64 (z : Int) : Int := (z + 2 ^ 63) % 2 ^ 64 - 2 ^ 63

/-- The `cutoff` of `ParseUint` in base 10: `maxUint64/10 + 1`. -/
def cutoff10 : Nat := (2 ^ 64 - 1) / 10 + 1

/-- The digit loop of `strconv.ParseUint` in base 10, from accumulator `n`.
It returns the pair `(value, err)` of the Go function. -/
def parseUintLoop (maxVal : Nat) : GoString → Nat → Nat × Option NumError
  | [], n => (n, none)
  | c :: cs, n =>
    match digit? c with
    | none => (0, some NumError.ErrSyntax)
    | some d =>
      if n ≥ cutoff10 then (maxVal, some NumError.ErrRange)
      else
        let n10 := wrapU64 (n * 10)
        let n1 := wrapU64 (n10 + d)
        if n1 < n10 ∨ n1 > maxVal then (maxVal, some NumError.ErrRange)
        else parseUintLoop maxVal cs n1

/-- Go `strconv.ParseUint(s, 10, bitSize)`. -/
def ParseUint (s : GoString) (bitSize : Nat) : Nat × Option NumError :=
  if s = [] then (0, some NumError.ErrSyntax)
  else if bitSize > 64 then (0, some NumError.ErrBitSize)
  else
    let bitSize := if bitSize = 0 then intSize else bitSize
    let maxVal := wrapU64 (wrapU64 (2 ^ bitSize) + (2 ^ 64 - 1))
    parseUintLoop maxVal s 0

/-- Go `strconv.ParseInt(s, 10, bitSize)`. -/
def ParseInt (s : GoString) (bitSize : Nat) : Int × Option NumError :=
  match s with
  | [] => (0, some NumError.ErrSyntax)
  | c :: rest =>
    let neg : Bool := c = '-'
    let s1 := if c = '+' ∨ c = '-' then rest else c :: rest
    let r := ParseUint s1 bitSize
    if r.2 ≠ none ∧ r.2 ≠ some NumError.ErrRange then (0, r.2)
    else
      let un := r.1
      let bitSize := if bitSize = 0 then intSize else bitSize
      let cutoff := 2 ^ (bitSize - 1)
      if neg = false ∧ un ≥ cutoff then ((cutoff : Int) - 1, some NumError.ErrRange)
      else if neg = true ∧ un > cutoff then (-(cutoff : Int), some NumError.ErrRange)
      else
        let n := wrap64 un
        (if neg then wrap64 (-n) else n, none)

/-- The digit loop of the fast path of `strconv.Atoi`; `none` is its syntax
error. -/
def atoiLoop : GoString → Int → Option Int
  | [], n => some n
  | c :: cs, n =>
    match digit? c with
    | none => none
    | some d => atoiLoop cs (wrap64 (n * 10 + d))

/-- Go `strconv.Atoi`, with `int` of 64 bits: a fast path for strings of fewer
than 19 bytes, `ParseInt(s, 10, 0)` otherwise. -/
def Atoi (s : GoString) : Int × Option NumError :=
  let sLen := byteLen s
  if 0 < sLen ∧ sLen < 19 then
    match s with
    | [] => (0, some NumError.ErrSyntax)
    | c :: rest =>
      let s1 := if c = '-' ∨ c = '+' then rest else c :: rest
      if (c = '-' ∨ c = '+') ∧ byteLen s1 < 1 then (0, some NumError.ErrSyntax)
      else
        match atoiLoop s1 0 with
        | none => (0, some NumError.ErrSyntax)
        | some n => (if c = '-' then wrap64 (-n) else n, none)
  else ParseInt s 0

/-! ## Errors -/

/-- The error values the package creates: its seven sentinels (`errors.New` at
package level, compared by identity) and the fresh values of `fmt.Errorf`. -/
inductive Cause
  | ErrNotStruct
  | ErrInvalidValidatorSyntax
  | ErrValidateForUnexportedFields
  | ErrLenValidationFailed
  | ErrInValidationFailed
  | ErrMaxValidationFailed
  | ErrMinValidationFailed
  | Errorf (msg : GoString)
  deriving DecidableEq, Repr

open Cause

/-- The method `Error()` of a cause. -/
def Cause.Error : Cause → GoString
  | ErrNotStruct => "wrong argument given, should be a struct".toList
  | ErrInvalidValidatorSyntax => "invalid validator syntax".toList
  | ErrValidateForUnexportedFields => "validation for unexported field is not allowed".toList
  | ErrLenValidationFailed => "len validation failed".toList
  | ErrInValidationFailed => "in validation failed".toList
  | ErrMaxValidationFailed => "max validation failed".toList
  | ErrMinValidationFailed => "min validation failed".toList
  | Errorf msg => msg

/-- The struct `ValidationError`. -/
structure ValidationError where
  field : GoString
  err : Cause
  deriving DecidableEq, Repr

/-- The constructor `NewValidationError(err, field)`. -/
def NewValidationError (err : Cause) (field : GoString) : ValidationError :=
  { field := field, err := err }

/-- The method `(*ValidationError).Error`: `fmt.Sprintf("%s: %s", e.field, e.err)`. -/
def ValidationError.Error (e : ValidationError) : GoString :=
  e.field ++ ": ".toList ++ e.err.Error

/-- The method `(*ValidationError).Unwrap`. -/
def ValidationError.Unwrap (e : ValidationError) : Cause := e.err

/-- A non-nil `error` as `Validate` and its helpers return it: a bare cause, a
`*ValidationError`, or the `errors.Join` of validation errors. -/
inductive GoError
  | cause (c : Cause)
  | validation (e : ValidationError)
  | join (errs : List ValidationError)
  deriving DecidableEq, Repr

/-- Go `errors.As(err, &ve)` for `ve *ValidationError`: the first validation
error found in the tree of `err`, if any. -/
def GoError.As : GoError → Option ValidationError
  | GoError.cause _ => none
  | GoError.validation e => some e
  | GoError.join errs => errs.head?

/-- The per-field errors an error carries. -/
def GoError.fieldErrors : GoError → List ValidationError
  | GoError.cause _ => []
  | GoError.validation e => [e]
  | GoError.join errs => errs

/-- Is this cause one of the seven sentinels of the package (and not a value of
`fmt.Errorf`)? -/
def Cause.isSentinel : Cause → Bool
  | Errorf _ => false
  | _ => true

/-- Identity of error values (Go `==` on `error`) between a cause `c` that the
validator stored and a `target` that the caller of `errors.Is` supplies. A
sentinel is a package-level variable and is identical exactly to itself. A
value of `fmt.Errorf` is created afresh by the call that reports it, so it is
identical to no value the caller holds, whatever the text of that value. -/
def Cause.same (c target : Cause) : Bool :=
  c.isSentinel && decide (c = target)

/-- Go `errors.Is(e, target)` for a `*ValidationError` `e`: `e` itself is
never the target, so the answer is whether the cause that `Unwrap` returns is
the target. -/
def ValidationError.Is (e : ValidationError) (target : Cause) : Bool :=
  e.Unwrap.same target

/-- Go `errors.Is(err, target)` on the errors that `Validate` returns: a join
matches when one of the errors it wraps does. -/
def GoError.Is : GoError → Cause → Bool
  | GoError.cause c, target => c.same target
  | GoError.validation e, target => e.Is target
  | GoError.join errs, target => errs.any (fun e => e.Is target)

/-! ## Reflection -/

/-- Go `reflect.Kind`. -/
inductive Kind
  | Invalid | Bool | Int | Int8 | Int16 | Int32 | Int64
  | Uint | Uint8 | Uint16 | Uint32 | Uint64 | Uintptr
  | Float32 | Float64 | Complex64 | Complex128
  | Array | Chan | Func | Interface | Map | Pointer | Slice
  | String | Struct | UnsafePointer
  deriving DecidableEq, Repr

/-- The method `reflect.Kind.String`: the name of a kind. -/
def Kind.Name : Kind → GoString
  | Kind.Invalid => "invalid".toList
  | Kind.Bool => "bool".toList
  | Kind.Int => "int".toList
  | Kind.Int8 => "int8".toList
  | Kind.Int16 => "int16".toList
  | Kind.Int32 => "int32".toList
  | Kind.Int64 => "int64".toList
  | Kind.Uint => "uint".toList
  | Kind.Uint8 => "uint8".toList
  | Kind.Uint16 => "uint16".toList
  | Kind.Uint32 => "uint32".toList
  | Kind.Uint64 => "uint64".toList
  | Kind.Uintptr => "uintptr".toList
  | Kind.Float32 => "float32".toList
  | Kind.Float64 => "float64".toList
  | Kind.Complex64 => "complex64".toList
  | Kind.Complex128 => "complex128".toList
  | Kind.Array => "array".toList
  | Kind.Chan => "chan".toList
  | Kind.Func => "func".toList
  | Kind.Interface => "interface".toList
  | Kind.Map => "map".toList
  | Kind.Pointer => "ptr".toList
  | Kind.Slice => "slice".toList
  | Kind.String => "string".toList
  | Kind.Struct => "struct".toList
  | Kind.UnsafePointer => "unsafe.Pointer".toList

/-- What the validator reads of a `reflect.StructField`: its name, whether it
is exported, and `Tag.Get("validate")`. -/
structure StructField where
  Name : GoString
  IsExported : Bool
  Tag : GoString
  deriving DecidableEq, Repr

/-- A `reflect.Value`, as far as the validator inspects it: strings and `int`s
with their content, structs with their fields in declaration order, pointers,
and values of the remaining kinds, of which only the kind is observed. -/
inductive Value
  | str (s : GoString)
  | int (v : Int)
  | struct (fields : List (StructField × Value))
  | ptr (elem : Option Value)
  | other (k : Kind)
      (h : k ≠ Kind.String ∧ k ≠ Kind.Int ∧ k ≠ Kind.Struct ∧ k ≠ Kind.Pointer)

/-- The method `reflect.Value.Kind`. -/
def Value.Kind : Value → Kind
  | Value.str _ => Kind.String
  | Value.int _ => Kind.Int
  | Value.struct _ => Kind.Struct
  | Value.ptr _ => Kind.Pointer
  | Value.other k _ => k

/-! ## The rule functions -/

/-- The function `validateLen`. -/
def validateLen (field : Value) (param fieldName : GoString) : Option ValidationError :=
  match field with
  | Value.str s =>
    let r := Atoi param
    if r.2 ≠ none ∨ r.1 < 0 then
      some (NewValidationError ErrInvalidValidatorSyntax fieldName)
    else if (byteLen s : Int) ≠ r.1 then
      some (NewValidationError ErrLenValidationFailed fieldName)
    else none
  | _ =>
    some (NewValidationError
      (Errorf ("len requires string, got ".toList ++ field.Kind.Name)) fieldName)

/-- The string loop of `validateIn`: does some trimmed option equal `val`? -/
def inStringLoop (val : GoString) : List GoString → Bool
  | [] => false
  | opt :: rest => if TrimSpace opt = val then true else inStringLoop val rest

/-- The integer loop of `validateIn`: does some trimmed option parse, with
`strconv.ParseInt(_, 10, 64)`, to `val`? Options that do not parse are skipped. -/
def inIntLoop (val : Int) : List GoString → Bool
  | [] => false
  | opt :: rest =>
    let r := ParseInt (TrimSpace opt) 64
    if r.2 ≠ none then inIntLoop val rest
    else if val = r.1 then true
    else inIntLoop val rest

/-- The function `validateIn`. -/
def validateIn (field : Value) (param fieldName : GoString) : Option ValidationError :=
  if param = [] then some (NewValidationError ErrInvalidValidatorSyntax fieldName)
  else
    let options := Split ',' param
    if options.length = 0 then some (NewValidationError ErrInvalidValidatorSyntax fieldName)
    else
      match field with
      | Value.str val =>
        if inStringLoop val options then none
        else some (NewValidationError ErrInValidationFailed fieldName)
      | Value.int val =>
        if inIntLoop val options then none
        else some (NewValidationError ErrInValidationFailed fieldName)
      | _ =>
        some (NewValidationError
          (Errorf ("in requires string or int, got ".toList ++ field.Kind.Name)) fieldName)

/-- The function `validateMin`. -/
def validateMin (field : Value) (param fieldName : GoString) : Option ValidationError :=
  let r := Atoi param
  if r.2 ≠ none then some (NewValidationError ErrInvalidValidatorSyntax fieldName)
  else
    match field with
    | Value.str s =>
      if (byteLen s : Int) < r.1 then some (NewValidationError ErrMinValidationFailed fieldName)
      else none
    | Value.int v =>
      if v < r.1 then some (NewValidationError ErrMinValidationFailed fieldName)
      else none
    | _ =>
      some (NewValidationError
        (Errorf ("min requires string or int, got ".toList ++ field.Kind.Name)) fieldName)

/-- The function `validateMax`. -/
def validateMax (field : Value) (param fieldName : GoString) : Option ValidationError :=
  let r := Atoi param
  if r.2 ≠ none then some (NewValidationError ErrInvalidValidatorSyntax fieldName)
  else
    match field with
    | Value.str s =>
      if (byteLen s : Int) > r.1 then some (NewValidationError ErrMaxValidationFailed fieldName)
      else none
    | Value.int v =>
      if v > r.1 then some (NewValidationError ErrMaxValidationFailed fieldName)
      else none
    | _ =>
      some (NewValidationError
        (Errorf ("max requires string or int, got ".toList ++ field.Kind.Name)) fieldName)

/-! ## Validate -/

/-- The `switch key` of `Validate`: the rule a parsed clause `key:value` runs. -/
def dispatch (fieldValue : Value) (fieldName key value : GoString) : Option ValidationError :=
  if key = "len".toList then validateLen fieldValue value fieldName
  else if key = "in".toList then validateIn fieldValue value fieldName
  else if key = "min".toList then validateMin fieldValue value fieldName
  else if key = "max".toList then validateMax fieldValue value fieldName
  else some (NewValidationError ErrInvalidValidatorSyntax fieldName)

/-- One iteration of the inner loop of `Validate` (over the validators of one
tag), as a transformation of the slice `errs`. -/
def validatorStep (fieldValue : Value) (fieldName : GoString)
    (errs : List ValidationError) (validator : GoString) : List ValidationError :=
  let validator := TrimSpace validator
  if validator = [] then errs
  else
    match SplitN ':' validator 2 with
    | [key, value] =>
      match dispatch fieldValue fieldName key value with
      | some err => errs ++ [err]
      | none => errs
    | _ => errs ++ [NewValidationError ErrInvalidValidatorSyntax fieldName]

/-- One iteration of the outer loop of `Validate` (over the fields), as a
transformation of the slice `errs`. -/
def fieldStep (errs : List ValidationError) (f : StructField × Value) : List ValidationError :=
  if f.1.IsExported = false ∧ f.1.Tag ≠ [] then
    errs ++ [NewValidationError ErrValidateForUnexportedFields f.1.Name]
  else if f.1.Tag = [] then errs
  else (Split ';' f.1.Tag).foldl (validatorStep f.2 f.1.Name) errs

/-- The slice `errs` of `Validate` after the loop over the fields. -/
def collect (fields : List (StructField × Value)) : List ValidationError :=
  fields.foldl fieldStep []

/-- The function `Validate`. -/
def Validate (v : Value) : Option GoError :=
  match v with
  | Value.struct fields =>
    let errs := collect fields
    if errs.length > 0 then some (GoError.join errs) else none
  | _ => some (GoError.cause ErrNotStruct)

/-- The errors a run of validators (pieces of one tag) appends for a field:
the inner loop of `Validate` started on an empty slice. -/
def clauseErrors (fieldValue : Value) (fieldName : GoString) (validators : List GoString) :
    List ValidationError :=
  validators.foldl (validatorStep fieldValue fieldName) []

/-- The errors one field appends: one iteration of the outer loop of `Validate`
started on an empty slice. -/
def fieldErrors (f : StructField × Value) : List ValidationError := fieldStep [] f

/-! ## Specification-side definitions

These follow the wording of the specification, not the code; the theorems
below compare them with the functions above. -/

/-- The number a non-empty run of decimal digits read after `n` denotes, with
no bound on its size; `none` if some character is not a digit. -/
def digitsAcc : GoString → Nat → Option Nat
  | [], n => some n
  | c :: cs, n =>
    match digit? c with
    | none => none
    | some d => digitsAcc cs (n * 10 + d)

/-- The number denoted by one or more decimal digits. -/
def digitsValue (s : GoString) : Option Nat :=
  if s = [] then none else digitsAcc s 0

/-- The integer a base-10 literal denotes: an optional leading `+` or `-`,
then one or more digits, nothing else. There is no bound on its size. -/
def decimalValue (s : GoString) : Option Int :=
  match s with
  | [] => none
  | c :: rest =>
    if c = '+' then (digitsValue rest).map (fun (n : Nat) => (n : Int))
    else if c = '-' then (digitsValue rest).map (fun (n : Nat) => -(n : Int))
    else (digitsValue (c :: rest)).map (fun (n : Nat) => (n : Int))

/-- The clauses of a rule string: its pieces between `;`, each trimmed of
surrounding white space, the empty ones skipped. -/
def specClauses (tag : GoString) : List GoString :=
  ((Split ';' tag).map TrimSpace).filter (fun c => c ≠ [])

/-- The outcome of one non-empty clause: it splits at its first `:` into a kind
and a parameter, and the rule of that kind is evaluated; a clause without `:`
or with an unknown kind is a syntax error. `none` means the clause passes. -/
def specClauseError (fieldValue : Value) (fieldName clause : GoString) :
    Option ValidationError :=
  match cut ':' clause with
  | none => some (NewValidationError ErrInvalidValidatorSyntax fieldName)
  | some (key, value) => dispatch fieldValue fieldName key value

/-- The violations of one field: none without a rule string, one
unexported-field error for a field that is not exported, and otherwise one
error for each failing clause, in the order of the clauses. -/
def specFieldErrors (f : StructField × Value) : List ValidationError :=
  if f.1.Tag = [] then []
  else if f.1.IsExported = false then
    [NewValidationError ErrValidateForUnexportedFields f.1.Name]
  else (specClauses f.1.Tag).filterMap (specClauseError f.2 f.1.Name)

/-- The violations of a record: those of its fields, in declaration order. -/
def specErrors : List (StructField × Value) → List ValidationError
  | [] => []
  | f :: fs => specFieldErrors f ++ specErrors fs

/-- Go `strings.Join(pieces, sep)` for a one-character separator: the pieces
written one after the other, with `sep` between two neighbours. -/
def joinWith (sep : Char) : List GoString → GoString
  | [] => []
  | [p] => p
  | p :: q :: rest => p ++ sep :: joinWith sep (q :: rest)

/-- An option as it stands in the list of an `in` rule: its text `core`, with
the white space `lead` before it and `trail` after it. -/
structure ListedOption where
  lead : GoString
  core : GoString
  trail : GoString

/-- The option as written, white space included. -/
def ListedOption.text (o : ListedOption) : GoString := o.lead ++ o.core ++ o.trail

/-- A listed option is well formed when `lead` and `trail` are white space
only and its text holds no comma and neither begins nor ends with white
space (it may be empty). -/
def ListedOption.wellFormed (o : ListedOption) : Prop :=
  (∀ c ∈ o.lead, isSpace c = true) ∧ (∀ c ∈ o.trail, isSpace c = true) ∧
  ',' ∉ o.core ∧
  (∀ c ∈ o.core.head?, isSpace c = false) ∧ (∀ c ∈ o.core.getLast?, isSpace c = false)

/-- Membership in the signed 64-bit range. -/
def inInt64 (z : Int) : Prop := -2 ^ 63 ≤ z ∧ z < 2 ^ 63

instance (z : Int) : Decidable (inInt64 z) := by
  unfold inInt64; exact inferInstance

/-! ## Decimal parsing -/

theorem digitsAcc_le : ∀ (s : GoString) (n v : Nat), digitsAcc s n = some v → n ≤ v := by
  intro s
  induction s with
  | nil => intro n v h; simp [digitsAcc] at h; omega
  | cons c cs ih =>
    intro n v h
    simp only [digitsAcc] at h
    cases hd : digit? c with
    | none => simp [hd] at h
    | some d =>
      simp only [hd] at h
      have := ih _ _ h
      omega

theorem digit?_lt (c : Char) (d : Nat) (h : digit? c = some d) : d < 10 := by
  unfold digit? at h
  split at h
  · simp at h; omega
  · simp at h

theorem parseUintLoop_ok : ∀ (s : GoString) (n v : Nat), digitsAcc s n = some v → v < 2 ^ 64 →
    parseUintLoop (2 ^ 64 - 1) s n = (v, none) := by
  intro s
  induction s with
  | nil => intro n v h _; simp [digitsAcc] at h; simp [parseUintLoop, h]
  | cons c cs ih =>
    intro n v h hv
    simp only [digitsAcc] at h
    cases hd : digit? c with
    | none => simp [hd] at h
    | some d =>
      simp only [hd] at h
      have hle := digitsAcc_le _ _ _ h
      have hd10 := digit?_lt c d hd
      have hn : ¬ (n ≥ cutoff10) := by
        simp only [cutoff10]; omega
      have h10 : wrapU64 (n * 10) = n * 10 := by
        simp only [wrapU64]; omega
      have h1 : wrapU64 (n * 10 + d) = n * 10 + d := by
        simp only [wrapU64]; omega
      simp only [parseUintLoop, hd, hn, h10, h1, if_false]
      have hc : ¬ (n * 10 + d < n * 10 ∨ n * 10 + d > 2 ^ 64 - 1) := by omega
      simp only [hc, if_false]
      exact ih _ _ h hv

theorem parseUintLoop_range : ∀ (s : GoString) (n v : Nat), digitsAcc s n = some v → 2 ^ 64 ≤ v →
    n < 2 ^ 64 → parseUintLoop (2 ^ 64 - 1) s n = (2 ^ 64 - 1, some NumError.ErrRange) := by
  intro s
  induction s with
  | nil => intro n v h hv hn; simp [digitsAcc] at h; omega
  | cons c cs ih =>
    intro n v h hv hn64
    simp only [digitsAcc] at h
    cases hd : digit? c with
    | none => simp [hd] at h
    | some d =>
      simp only [hd] at h
      have hd10 := digit?_lt c d hd
      simp only [parseUintLoop, hd]
      by_cases hn : n ≥ cutoff10
      · simp only [hn, if_true]
      · simp only [hn, if_false]
        have hn' : n < 1844674407370955162 := by simp only [cutoff10] at hn; omega
        have h10 : wrapU64 (n * 10) = n * 10 := by
          simp only [wrapU64]; omega
        simp only [h10]
        by_cases hov : n * 10 + d < 2 ^ 64
        · have h1 : wrapU64 (n * 10 + d) = n * 10 + d := by
            simp only [wrapU64]; omega
          have hc : ¬ (n * 10 + d < n * 10 ∨ n * 10 + d > 2 ^ 64 - 1) := by omega
          simp only [h1, hc, if_false]
          exact ih _ _ h hv hov
        · have hc : wrapU64 (n * 10 + d) < n * 10 ∨ wrapU64 (n * 10 + d) > 2 ^ 64 - 1 := by
            left; simp only [wrapU64]; omega
          simp only [hc, if_true]

theorem digitsAcc_none_indep : ∀ (s : GoString) (n m : Nat), digitsAcc s n = none →
    digitsAcc s m = none := by
  intro s
  induction s with
  | nil => intro n m h; simp [digitsAcc] at h
  | cons c cs ih =>
    intro n m h
    simp only [digitsAcc] at h ⊢
    cases hd : digit? c with
    | none => rfl
    | some d =>
      simp only [hd] at h ⊢
      exact ih _ _ h

theorem parseUintLoop_malformed : ∀ (s : GoString) (n : Nat), digitsAcc s n = none →
    (parseUintLoop (2 ^ 64 - 1) s n).2 = some NumError.ErrSyntax ∨
    parseUintLoop (2 ^ 64 - 1) s n = (2 ^ 64 - 1, some NumError.ErrRange) := by
  intro s
  induction s with
  | nil => intro n h; simp [digitsAcc] at h
  | cons c cs ih =>
    intro n h
    simp only [digitsAcc] at h
    cases hd : digit? c with
    | none => left; simp [parseUintLoop, hd]
    | some d =>
      simp only [hd] at h
      simp only [parseUintLoop, hd]
      by_cases hn : n ≥ cutoff10
      · right; simp only [hn, if_true]
      · simp only [hn, if_false]
        split
        · right; rfl
        · exact ih _ (digitsAcc_none_indep _ _ _ h)

theorem ParseUint_eq_loop (s : GoString) (b : Nat) (hs : s ≠ []) (hb : b = 0 ∨ b = 64) :
    ParseUint s b = parseUintLoop (2 ^ 64 - 1) s 0 := by
  rcases hb with hb | hb <;> subst hb <;> simp [ParseUint, hs, intSize, wrapU64]

theorem ParseUint_ok (s : GoString) (b v : Nat) (hb : b = 0 ∨ b = 64)
    (h : digitsValue s = some v) (hv : v < 2 ^ 64) : ParseUint s b = (v, none) := by
  unfold digitsValue at h
  by_cases hs : s = []
  · simp [hs] at h
  · simp only [hs, if_false] at h
    rw [ParseUint_eq_loop s b hs hb]
    exact parseUintLoop_ok s 0 v h hv

theorem ParseUint_range (s : GoString) (b v : Nat) (hb : b = 0 ∨ b = 64)
    (h : digitsValue s = some v) (hv : 2 ^ 64 ≤ v) :
    ParseUint s b = (2 ^ 64 - 1, some NumError.ErrRange) := by
  unfold digitsValue at h
  by_cases hs : s = []
  · simp [hs] at h
  · simp only [hs, if_false] at h
    rw [ParseUint_eq_loop s b hs hb]
    exact parseUintLoop_range s 0 v h hv (by norm_num)

theorem ParseUint_malformed (s : GoString) (b : Nat) (hb : b = 0 ∨ b = 64)
    (h : digitsValue s = none) :
    (ParseUint s b).2 = some NumError.ErrSyntax ∨
    ParseUint s b = (2 ^ 64 - 1, some NumError.ErrRange) := by
  unfold digitsValue at h
  by_cases hs : s = []
  · left; simp [ParseUint, hs]
  · simp only [hs, if_false] at h
    rw [ParseUint_eq_loop s b hs hb]
    exact parseUintLoop_malformed s 0 h

theorem wrap64_id (z : Int) (h : inInt64 z) : wrap64 z = z := by
  unfold inInt64 at h
  unfold wrap64
  omega

/-- The unsigned digits and the sign a literal splits into. -/
theorem decimalValue_cons (c : Char) (rest : GoString) :
    decimalValue (c :: rest) =
      (digitsValue (if c = '+' ∨ c = '-' then rest else c :: rest)).map
        (fun (n : Nat) => if c = '-' then -(n : Int) else (n : Int)) := by
  unfold decimalValue
  by_cases h1 : c = '+'
  · subst h1; simp
  · by_cases h2 : c = '-'
    · subst h2; simp
    · simp [h1, h2]

theorem ParseInt_ok (s : GoString) (b : Nat) (hb : b = 0 ∨ b = 64) (z : Int)
    (h : decimalValue s = some z) (hz : inInt64 z) : ParseInt s b = (z, none) := by
  cases s with
  | nil => simp [decimalValue] at h
  | cons c rest =>
    rw [decimalValue_cons] at h
    cases hv : digitsValue (if c = '+' ∨ c = '-' then rest else c :: rest) with
    | none => simp [hv] at h
    | some v =>
      simp only [hv, Option.map_some', Option.some.injEq] at h
      unfold inInt64 at hz
      by_cases hneg : c = '-'
      · simp only [hneg, if_true] at h
        have hv64 : v < 2 ^ 64 := by omega
        have hu := ParseUint_ok _ b v hb hv hv64
        rcases hb with hb | hb <;> subst hb <;>
          simp only [ParseInt, hu, intSize] <;>
          simp [hneg] <;> (unfold wrap64; rw [if_neg (by omega)]; simp only [Prod.mk.injEq, and_true]; omega)
      · simp only [hneg, if_false] at h
        have hv64 : v < 2 ^ 64 := by omega
        have hu := ParseUint_ok _ b v hb hv hv64
        rcases hb with hb | hb <;> subst hb <;>
          simp only [ParseInt, hu, intSize] <;>
          simp [hneg] <;> (unfold wrap64; rw [if_neg (by omega)]; simp only [Prod.mk.injEq, and_true]; omega)

theorem ParseInt_of_range (c : Char) (rest : GoString) (b : Nat) (hb : b = 0 ∨ b = 64)
    (hu : ParseUint (if c = '+' ∨ c = '-' then rest else c :: rest) b =
      (2 ^ 64 - 1, some NumError.ErrRange)) :
    (ParseInt (c :: rest) b).2 = some NumError.ErrRange := by
  by_cases hneg : c = '-' <;>
    rcases hb with hb | hb <;> subst hb <;>
    simp only [ParseInt, hu, intSize] <;> simp [hneg]

theorem ParseInt_err (s : GoString) (b : Nat) (hb : b = 0 ∨ b = 64)
    (h : ∀ z, decimalValue s = some z → ¬ inInt64 z) : (ParseInt s b).2 ≠ none := by
  cases s with
  | nil => simp [ParseInt]
  | cons c rest =>
    rw [decimalValue_cons] at h
    cases hv : digitsValue (if c = '+' ∨ c = '-' then rest else c :: rest) with
    | none =>
      rcases ParseUint_malformed _ b hb hv with hu | hu
      · simp only [ParseInt]
        rw [if_pos ⟨by rw [hu]; simp, by rw [hu]; simp⟩]
        rw [hu]; simp
      · rw [ParseInt_of_range c rest b hb hu]; simp
    | some v =>
      have hz := h _ (by rw [hv]; rfl)
      unfold inInt64 at hz
      by_cases hv64 : v < 2 ^ 64
      · have hu := ParseUint_ok _ b v hb hv hv64
        by_cases hneg : c = '-'
        · simp only [hneg, if_true] at hz
          rcases hb with hb | hb <;> subst hb <;>
            simp only [ParseInt, hu, intSize] <;>
            simp [hneg] <;> (rw [if_pos (by omega)]; simp)
        · simp only [hneg, if_false] at hz
          rcases hb with hb | hb <;> subst hb <;>
            simp only [ParseInt, hu, intSize] <;>
            simp [hneg] <;> (rw [if_pos (by omega)]; simp)
      · have hu := ParseUint_range _ b v hb hv (by omega)
        rw [ParseInt_of_range c rest b hb hu]; simp

/-- `ParseInt` succeeds exactly on the literals that denote a 64-bit integer,
and then returns the number denoted. -/
theorem ParseInt_iff (s : GoString) (b : Nat) (hb : b = 0 ∨ b = 64) (z : Int) :
    ParseInt s b = (z, none) ↔ decimalValue s = some z ∧ inInt64 z := by
  constructor
  · intro h
    by_contra hc
    cases hd : decimalValue s with
    | none =>
      exact ParseInt_err s b hb (by intro z hz; rw [hd] at hz; cases hz) (by rw [h])
    | some w =>
      by_cases hw : inInt64 w
      · have := ParseInt_ok s b hb w hd hw
        rw [h] at this
        simp only [Prod.mk.injEq, and_true] at this
        subst this
        exact hc ⟨hd, hw⟩
      · exact ParseInt_err s b hb
          (by intro z hz; rw [hd] at hz; cases hz; exact hw) (by rw [h])
  · rintro ⟨h, hz⟩
    exact ParseInt_ok s b hb z h hz


theorem utf8Len_pos (c : Char) : 1 ≤ utf8Len c := by
  unfold utf8Len; split_ifs <;> omega

theorem length_le_byteLen : ∀ s : GoString, s.length ≤ byteLen s := by
  intro s
  induction s with
  | nil => simp [byteLen]
  | cons c cs ih =>
    have := utf8Len_pos c
    simp only [List.length_cons, byteLen]
    omega

theorem digitsAcc_bound : ∀ (s : GoString) (n v : Nat), digitsAcc s n = some v →
    v + 1 ≤ (n + 1) * 10 ^ s.length := by
  intro s
  induction s with
  | nil => intro n v h; simp [digitsAcc] at h; simp [h]
  | cons c cs ih =>
    intro n v h
    simp only [digitsAcc] at h
    cases hd : digit? c with
    | none => simp [hd] at h
    | some d =>
      simp only [hd] at h
      have hd10 := digit?_lt c d hd
      have h1 := ih _ _ h
      have h2 : (n * 10 + d + 1) * 10 ^ cs.length ≤ ((n + 1) * 10) * 10 ^ cs.length :=
        Nat.mul_le_mul_right _ (by omega)
      simp only [List.length_cons, pow_succ]
      calc v + 1 ≤ (n * 10 + d + 1) * 10 ^ cs.length := h1
        _ ≤ ((n + 1) * 10) * 10 ^ cs.length := h2
        _ = (n + 1) * (10 ^ cs.length * 10) := by ring

theorem atoiLoop_eq : ∀ (s : GoString) (n : Nat), (n + 1) * 10 ^ s.length ≤ 10 ^ 18 →
    atoiLoop s (n : Int) = (digitsAcc s n).map (fun (m : Nat) => (m : Int)) := by
  intro s
  induction s with
  | nil => intro n _; simp [atoiLoop, digitsAcc]
  | cons c cs ih =>
    intro n hb
    simp only [atoiLoop, digitsAcc]
    cases hd : digit? c with
    | none => simp
    | some d =>
      have hd10 := digit?_lt c d hd
      have h2 : (n * 10 + d + 1) * 10 ^ cs.length ≤ ((n + 1) * 10) * 10 ^ cs.length :=
        Nat.mul_le_mul_right _ (by omega)
      have h3 : (n * 10 + d + 1) * 10 ^ cs.length ≤ 10 ^ 18 := by
        calc (n * 10 + d + 1) * 10 ^ cs.length ≤ ((n + 1) * 10) * 10 ^ cs.length := h2
          _ = (n + 1) * 10 ^ (c :: cs).length := by simp only [List.length_cons, pow_succ]; ring
          _ ≤ 10 ^ 18 := hb
      have hpos : 1 ≤ 10 ^ cs.length := Nat.one_le_pow _ _ (by omega)
      have h4 : n * 10 + d + 1 ≤ 10 ^ 18 :=
        le_trans (Nat.le_mul_of_pos_right _ hpos) h3
      have hw : wrap64 ((n : Int) * 10 + (d : Int)) = ((n * 10 + d : Nat) : Int) := by
        unfold wrap64
        push_cast
        omega
      simp only [hw]
      exact ih _ h3


theorem byteLen_eq_zero (s : GoString) (h : byteLen s < 1) : s = [] := by
  cases s with
  | nil => rfl
  | cons c cs =>
    have := utf8Len_pos c
    simp only [byteLen] at h
    omega

/-- On its fast path `Atoi` returns the number the literal denotes, which is
then always a 64-bit integer, and fails on everything that is not a literal. -/
theorem Atoi_fast (c : Char) (rest : GoString) (hlen : byteLen (c :: rest) < 19) :
    (∀ z, decimalValue (c :: rest) = some z → Atoi (c :: rest) = (z, none) ∧ inInt64 z) ∧
    (decimalValue (c :: rest) = none → (Atoi (c :: rest)).2 ≠ none) := by
  have hpos : 0 < byteLen (c :: rest) := by
    have := utf8Len_pos c
    simp only [byteLen]; omega
  have hl := length_le_byteLen (c :: rest)
  simp only [List.length_cons] at hl
  have hor : (c = '-' ∨ c = '+') ↔ (c = '+' ∨ c = '-') := or_comm
  rw [decimalValue_cons]
  simp only [Atoi, hpos, hlen, and_self, if_true, hor]
  generalize hs1 : (if c = '+' ∨ c = '-' then rest else c :: rest) = s1
  have hs1len : s1.length ≤ 18 := by
    rw [← hs1]; split <;> (try simp only [List.length_cons]) <;> omega
  by_cases hempty : (c = '+' ∨ c = '-') ∧ byteLen s1 < 1
  · have : s1 = [] := byteLen_eq_zero s1 hempty.2
    subst this
    simp [hempty, digitsValue]
  · rw [if_neg hempty]
    have hne : s1 ≠ [] := by
      intro he
      by_cases hsign : c = '+' ∨ c = '-'
      · exact hempty ⟨hsign, by rw [he]; simp [byteLen]⟩
      · rw [if_neg hsign] at hs1; rw [he] at hs1; cases hs1
    have hloop := atoiLoop_eq s1 0 (by
      have : 10 ^ s1.length ≤ 10 ^ 18 := Nat.pow_le_pow_right (by omega) hs1len
      omega)
    simp only [Nat.cast_zero] at hloop
    simp only [digitsValue, hne, if_false, hloop]
    cases hv : digitsAcc s1 0 with
    | none => simp
    | some v =>
      have hb := digitsAcc_bound s1 0 v hv
      have hb2 : 10 ^ s1.length ≤ 10 ^ 18 := Nat.pow_le_pow_right (by omega) hs1len
      have hv18 : v + 1 ≤ 10 ^ 18 := by omega
      simp only [Option.map_some', Option.some.injEq, inInt64]
      refine ⟨?_, fun hc => by cases hc⟩
      intro z hz
      subst hz
      by_cases hneg : c = '-'
      · simp only [hneg, if_true, Prod.mk.injEq, and_true]
        unfold wrap64
        omega
      · simp only [hneg, if_false, Prod.mk.injEq, and_true, true_and]
        omega

theorem Atoi_ok (s : GoString) (z : Int) (h : decimalValue s = some z) (hz : inInt64 z) :
    Atoi s = (z, none) := by
  by_cases hf : 0 < byteLen s ∧ byteLen s < 19
  · cases s with
    | nil => simp [decimalValue] at h
    | cons c rest => exact ((Atoi_fast c rest hf.2).1 z h).1
  · simp only [Atoi, hf, if_false]
    exact ParseInt_ok s 0 (Or.inl rfl) z h hz

theorem Atoi_err (s : GoString) (h : ∀ z, decimalValue s = some z → ¬ inInt64 z) :
    (Atoi s).2 ≠ none := by
  by_cases hf : 0 < byteLen s ∧ byteLen s < 19
  · cases s with
    | nil => simp [byteLen] at hf
    | cons c rest =>
      cases hd : decimalValue (c :: rest) with
      | none => exact (Atoi_fast c rest hf.2).2 hd
      | some z => exact absurd ((Atoi_fast c rest hf.2).1 z hd).2 (h z hd)
  · simp only [Atoi, hf, if_false]
    exact ParseInt_err s 0 (Or.inl rfl) h

/-- `Atoi` succeeds exactly on the literals that denote a 64-bit integer, and
then returns the number denoted. -/
theorem Atoi_iff (s : GoString) (z : Int) :
    Atoi s = (z, none) ↔ decimalValue s = some z ∧ inInt64 z := by
  constructor
  · intro h
    cases hd : decimalValue s with
    | none =>
      exact absurd (by rw [h]) (Atoi_err s (by intro z hz; rw [hd] at hz; cases hz))
    | some w =>
      by_cases hw : inInt64 w
      · have := Atoi_ok s w hd hw
        rw [h] at this
        simp only [Prod.mk.injEq, and_true] at this
        subst this
        exact ⟨rfl, hw⟩
      · exact absurd (by rw [h])
          (Atoi_err s (by intro z hz; rw [hd] at hz; cases hz; exact hw))
  · rintro ⟨h, hz⟩
    exact Atoi_ok s z h hz


/-! ## The loops of `Validate` -/

theorem SplitN_two (s : GoString) :
    SplitN ':' s 2 = match cut ':' s with
      | none => [s]
      | some (a, b) => [a, b] := by
  simp only [SplitN]

theorem validatorStep_eq (fv : Value) (name : GoString) (errs : List ValidationError)
    (c : GoString) :
    validatorStep fv name errs c =
      errs ++ (if TrimSpace c = [] then []
        else (specClauseError fv name (TrimSpace c)).toList) := by
  unfold validatorStep specClauseError
  by_cases he : TrimSpace c = []
  · simp [he]
  · simp only [he, if_false, SplitN_two]
    cases hc : cut ':' (TrimSpace c) with
    | none => simp
    | some p =>
      obtain ⟨a, b⟩ := p
      simp only
      cases dispatch fv name a b <;> simp

theorem foldl_validatorStep (fv : Value) (name : GoString) :
    ∀ (cs : List GoString) (errs : List ValidationError),
      cs.foldl (validatorStep fv name) errs = errs ++ clauseErrors fv name cs := by
  intro cs
  induction cs using List.reverseRecOn with
  | nil => intro errs; simp [clauseErrors]
  | append_singleton cs c ih =>
    intro errs
    simp only [clauseErrors, List.foldl_append, List.foldl_cons, List.foldl_nil]
    rw [validatorStep_eq fv name (List.foldl _ errs cs), validatorStep_eq fv name (List.foldl _ [] cs),
      ih errs, ih []]
    simp [clauseErrors]

theorem clauseErrors_nil (fv : Value) (name : GoString) : clauseErrors fv name [] = [] := rfl

theorem clauseErrors_cons (fv : Value) (name : GoString) (c : GoString) (cs : List GoString) :
    clauseErrors fv name (c :: cs) =
      (if TrimSpace c = [] then [] else (specClauseError fv name (TrimSpace c)).toList) ++
        clauseErrors fv name cs := by
  show List.foldl _ (validatorStep fv name [] c) cs = _
  rw [foldl_validatorStep, validatorStep_eq]
  simp

theorem clauseErrors_append (fv : Value) (name : GoString) (as bs : List GoString) :
    clauseErrors fv name (as ++ bs) = clauseErrors fv name as ++ clauseErrors fv name bs := by
  show List.foldl _ [] (as ++ bs) = _
  rw [List.foldl_append, foldl_validatorStep]
  simp [clauseErrors]

theorem clauseErrors_eq_filterMap (fv : Value) (name : GoString) (cs : List GoString) :
    clauseErrors fv name cs =
      ((cs.map TrimSpace).filter (fun c => c ≠ [])).filterMap (specClauseError fv name) := by
  induction cs with
  | nil => rfl
  | cons c cs ih =>
    rw [clauseErrors_cons, ih]
    by_cases he : TrimSpace c = []
    · simp [he]
    · simp only [he, if_false, List.map_cons]
      rw [List.filter_cons_of_pos (by simpa using he)]
      cases hs : specClauseError fv name (TrimSpace c) <;> simp [List.filterMap_cons, hs]

theorem fieldErrors_eq_spec (f : StructField × Value) : fieldErrors f = specFieldErrors f := by
  unfold fieldErrors fieldStep specFieldErrors specClauses
  by_cases ht : f.1.Tag = []
  · simp [ht]
  · by_cases hx : f.1.IsExported = false
    · simp [ht, hx]
    · simp only [ht, hx, false_and, if_false]
      rw [foldl_validatorStep, clauseErrors_eq_filterMap]
      simp

theorem fieldStep_eq (errs : List ValidationError) (f : StructField × Value) :
    fieldStep errs f = errs ++ fieldErrors f := by
  unfold fieldErrors fieldStep
  by_cases ht : f.1.Tag = []
  · simp [ht]
  · by_cases hx : f.1.IsExported = false
    · simp [ht, hx]
    · simp only [ht, hx, false_and, if_false]
      rw [foldl_validatorStep, foldl_validatorStep]
      simp

theorem foldl_fieldStep : ∀ (fs : List (StructField × Value)) (errs : List ValidationError),
    fs.foldl fieldStep errs = errs ++ collect fs := by
  intro fs
  induction fs using List.reverseRecOn with
  | nil => intro errs; simp [collect]
  | append_singleton fs f ih =>
    intro errs
    simp only [collect, List.foldl_append, List.foldl_cons, List.foldl_nil]
    rw [fieldStep_eq (List.foldl _ errs fs), fieldStep_eq (List.foldl _ [] fs), ih errs, ih []]
    simp [collect]

theorem collect_nil : collect [] = [] := rfl

theorem collect_cons (f : StructField × Value) (fs : List (StructField × Value)) :
    collect (f :: fs) = fieldErrors f ++ collect fs := by
  show List.foldl _ (fieldStep [] f) fs = _
  rw [foldl_fieldStep]
  rfl

theorem collect_append (as bs : List (StructField × Value)) :
    collect (as ++ bs) = collect as ++ collect bs := by
  show List.foldl _ [] (as ++ bs) = _
  rw [List.foldl_append, foldl_fieldStep]
  simp [collect]

theorem collect_eq_spec : ∀ fs : List (StructField × Value), collect fs = specErrors fs := by
  intro fs
  induction fs with
  | nil => rfl
  | cons f fs ih => rw [collect_cons, ih, fieldErrors_eq_spec]; rfl

theorem Validate_struct (fields : List (StructField × Value)) :
    Validate (Value.struct fields) =
      if collect fields = [] then none else some (GoError.join (collect fields)) := by
  unfold Validate
  cases h : collect fields <;> simp [h]


theorem cut_none_of_not_mem : ∀ s : GoString, ':' ∉ s → cut ':' s = none := by
  intro s
  induction s with
  | nil => intro _; rfl
  | cons c cs ih =>
    intro h
    simp only [List.mem_cons, not_or] at h
    have hc : c ≠ ':' := fun e => h.1 e.symm
    simp [cut, hc, ih h.2]

theorem cut_append_sep : ∀ (k p : GoString), ':' ∉ k → cut ':' (k ++ ':' :: p) = some (k, p) := by
  intro k
  induction k with
  | nil => intro p _; simp [cut]
  | cons c cs ih =>
    intro p h
    simp only [List.mem_cons, not_or] at h
    have hc : c ≠ ':' := fun e => h.1 e.symm
    simp [cut, hc, ih p h.2]

/-- An exported field with a rule string contributes the errors of its clauses. -/
theorem fieldErrors_exported (f : StructField) (v : Value) (hx : f.IsExported = true)
    (ht : f.Tag ≠ []) : fieldErrors (f, v) = clauseErrors v f.Name (Split ';' f.Tag) := by
  unfold fieldErrors fieldStep
  simp [hx, ht, clauseErrors]

/-! ## The claims -/

/-- C1: for a struct, `Validate` returns the join of exactly the violations the
specification lists (one per unexported field with a rule string, one per
failing non-empty clause of an exported field, in field order and then clause
order, nothing dropped or merged), and returns nil exactly when that list is
empty; an exported string field "hi" tagged `min:5;max:1` yields min-failed
then max-failed. -/
theorem Validate_exhaustive_ordered :
    (∀ fields : List (StructField × Value),
      Validate (Value.struct fields) =
        if specErrors fields = [] then none else some (GoError.join (specErrors fields))) ∧
    (∀ fields : List (StructField × Value),
      Validate (Value.struct fields) = none ↔ specErrors fields = []) ∧
    Validate (Value.struct
        [({ Name := "F".toList, IsExported := true, Tag := "min:5;max:1".toList },
          Value.str "hi".toList)]) =
      some (GoError.join [NewValidationError ErrMinValidationFailed "F".toList,
        NewValidationError ErrMaxValidationFailed "F".toList]) := by
  refine ⟨?_, ?_, by decide⟩
  · intro fields
    rw [Validate_struct, collect_eq_spec]
  · intro fields
    rw [Validate_struct, collect_eq_spec]
    by_cases h : specErrors fields = [] <;> simp [h]

/-- C2: on every value whose kind is not `Struct` (a pointer to a struct
included) `Validate` returns exactly `ErrNotStruct`, an error that is no
`ValidationError` and carries no per-field error. -/
theorem Validate_not_struct (v : Value) (h : v.Kind ≠ Kind.Struct) :
    Validate v = some (GoError.cause ErrNotStruct) ∧
    ∀ e, Validate v = some e → e.As = none ∧ e.fieldErrors = [] := by
  have hv : Validate v = some (GoError.cause ErrNotStruct) := by
    cases v with
    | struct fields => exact absurd rfl h
    | str s => rfl
    | int n => rfl
    | ptr p => rfl
    | other k hk => rfl
  refine ⟨hv, ?_⟩
  intro e he
  rw [hv] at he
  cases he
  exact ⟨rfl, rfl⟩

/-- Witness of C2: a pointer to a struct whose only field violates its rule. -/
theorem Validate_not_struct_witness :
    (Value.ptr (some (Value.struct
        [({ Name := "F".toList, IsExported := true, Tag := "len:5".toList },
          Value.str "ab".toList)]))).Kind ≠ Kind.Struct ∧
    Validate (Value.ptr (some (Value.struct
        [({ Name := "F".toList, IsExported := true, Tag := "len:5".toList },
          Value.str "ab".toList)]))) = some (GoError.cause ErrNotStruct) :=
  ⟨by decide, (Validate_not_struct _ (by decide)).1⟩

/-- C3: an unexported field with a non-empty rule string contributes exactly
one error, of cause `ErrValidateForUnexportedFields`, whatever the rule string
and the value are: the errors of the record are those of the fields before it,
that single error, then those of the fields after it. -/
theorem Validate_unexported (pre post : List (StructField × Value)) (f : StructField)
    (v : Value) (hx : f.IsExported = false) (ht : f.Tag ≠ []) :
    fieldErrors (f, v) = [NewValidationError ErrValidateForUnexportedFields f.Name] ∧
    collect (pre ++ (f, v) :: post) =
      collect pre ++ NewValidationError ErrValidateForUnexportedFields f.Name :: collect post ∧
    Validate (Value.struct (pre ++ (f, v) :: post)) =
      some (GoError.join
        (collect pre ++ NewValidationError ErrValidateForUnexportedFields f.Name ::
          collect post)) := by
  have h1 : fieldErrors (f, v) = [NewValidationError ErrValidateForUnexportedFields f.Name] := by
    unfold fieldErrors fieldStep
    simp [hx, ht]
  have h2 : collect (pre ++ (f, v) :: post) =
      collect pre ++ NewValidationError ErrValidateForUnexportedFields f.Name :: collect post := by
    rw [collect_append, collect_cons, h1]
    rfl
  refine ⟨h1, h2, ?_⟩
  rw [Validate_struct, h2]
  simp

/-- Witness of C3: an unexported string field "hi" tagged `min:5;oops`, between
an exported field that fails `len:5` and one that fails `max:1`. -/
theorem Validate_unexported_witness :
    ({ Name := "b".toList, IsExported := false, Tag := "min:5;oops".toList } :
      StructField).IsExported = false ∧
    ({ Name := "b".toList, IsExported := false, Tag := "min:5;oops".toList } :
      StructField).Tag ≠ [] ∧
    Validate (Value.struct
        ([({ Name := "A".toList, IsExported := true, Tag := "len:5".toList },
            Value.str "ab".toList)] ++
          ({ Name := "b".toList, IsExported := false, Tag := "min:5;oops".toList },
            Value.str "hi".toList) ::
          [({ Name := "C".toList, IsExported := true, Tag := "max:1".toList },
            Value.int 7)])) =
      some (GoError.join [NewValidationError ErrLenValidationFailed "A".toList,
        NewValidationError ErrValidateForUnexportedFields "b".toList,
        NewValidationError ErrMaxValidationFailed "C".toList]) :=
  ⟨by decide, by decide,
    (Validate_unexported _ _ _ _ (by decide) (by decide)).2.2.trans (by decide)⟩


/-- Counterexample to C4 as stated: on an exported string field "hi" tagged
`oops;min:5` the clause `oops` has no `:`, and yet the clause `min:5` after it
is evaluated and contributes min-failed; the field does not stop at the syntax
error. -/
theorem Validate_missing_colon_no_abort :
    ':' ∉ TrimSpace "oops".toList ∧
    Split ';' "oops;min:5".toList = ["oops".toList, "min:5".toList] ∧
    Validate (Value.struct
        [({ Name := "F".toList, IsExported := true, Tag := "oops;min:5".toList },
          Value.str "hi".toList)]) =
      some (GoError.join [NewValidationError ErrInvalidValidatorSyntax "F".toList,
        NewValidationError ErrMinValidationFailed "F".toList]) ∧
    Validate (Value.struct
        [({ Name := "F".toList, IsExported := true, Tag := "oops;min:5".toList },
          Value.str "hi".toList)]) ≠
      some (GoError.join [NewValidationError ErrInvalidValidatorSyntax "F".toList]) := by
  decide

/-- C4, amended: a non-empty clause without `:` in the rule string of an
exported field contributes exactly one invalid-syntax error for that field,
placed between the errors of the clauses before it and the errors of the
clauses after it, which are still evaluated; the errors of the other fields
are unaffected. -/
theorem Validate_missing_colon (before after : List (StructField × Value)) (f : StructField)
    (v : Value) (pre post : List GoString) (c : GoString)
    (hx : f.IsExported = true) (hs : Split ';' f.Tag = pre ++ c :: post)
    (hne : TrimSpace c ≠ []) (hc : ':' ∉ TrimSpace c) :
    fieldErrors (f, v) =
      clauseErrors v f.Name pre ++
        NewValidationError ErrInvalidValidatorSyntax f.Name :: clauseErrors v f.Name post ∧
    collect (before ++ (f, v) :: after) =
      collect before ++
        (clauseErrors v f.Name pre ++
          NewValidationError ErrInvalidValidatorSyntax f.Name :: clauseErrors v f.Name post) ++
        collect after := by
  have ht : f.Tag ≠ [] := by
    intro he
    rw [he] at hs
    have hlen := congrArg List.length hs
    simp only [Split, List.length_cons, List.length_nil, List.length_append] at hlen
    have hpre : pre = [] := List.length_eq_zero.mp (by omega)
    subst hpre
    simp only [Split, List.nil_append, List.cons.injEq] at hs
    rw [← hs.1] at hne
    exact hne rfl
  have h1 : fieldErrors (f, v) =
      clauseErrors v f.Name pre ++
        NewValidationError ErrInvalidValidatorSyntax f.Name :: clauseErrors v f.Name post := by
    rw [fieldErrors_exported f v hx ht, hs, clauseErrors_append, clauseErrors_cons]
    simp [hne, specClauseError, cut_none_of_not_mem _ hc]
  refine ⟨h1, ?_⟩
  rw [collect_append, collect_cons, h1]
  simp

/-- Witness of C4, amended: the string field "hi" tagged `min:5;oops;max:1`. -/
theorem Validate_missing_colon_witness :
    ({ Name := "F".toList, IsExported := true, Tag := "min:5;oops;max:1".toList } :
      StructField).IsExported = true ∧
    Split ';' "min:5;oops;max:1".toList = ["min:5".toList] ++ "oops".toList :: ["max:1".toList] ∧
    TrimSpace "oops".toList ≠ [] ∧ ':' ∉ TrimSpace "oops".toList ∧
    fieldErrors ({ Name := "F".toList, IsExported := true, Tag := "min:5;oops;max:1".toList },
        Value.str "hi".toList) =
      [NewValidationError ErrMinValidationFailed "F".toList,
        NewValidationError ErrInvalidValidatorSyntax "F".toList,
        NewValidationError ErrMaxValidationFailed "F".toList] :=
  ⟨by decide, by decide, by decide, by decide,
    (Validate_missing_colon [] []
      { Name := "F".toList, IsExported := true, Tag := "min:5;oops;max:1".toList }
      (Value.str "hi".toList) ["min:5".toList] ["max:1".toList] "oops".toList
      (by decide) (by decide) (by decide) (by decide)).1.trans (by decide)⟩

/-- C5: a clause `K:P` of an exported field whose kind `K` is none of `len`,
`in`, `min`, `max` contributes exactly one invalid-syntax error, whatever the
value of the field, and the clauses before and after it are still evaluated
and contribute their own errors. -/
theorem Validate_unknown_kind (f : StructField) (v : Value) (pre post : List GoString)
    (c K P : GoString) (hx : f.IsExported = true) (hs : Split ';' f.Tag = pre ++ c :: post)
    (hc : TrimSpace c = K ++ ':' :: P) (hK : ':' ∉ K)
    (hk : K ≠ "len".toList ∧ K ≠ "in".toList ∧ K ≠ "min".toList ∧ K ≠ "max".toList) :
    fieldErrors (f, v) =
      clauseErrors v f.Name pre ++
        NewValidationError ErrInvalidValidatorSyntax f.Name :: clauseErrors v f.Name post := by
  have hne : TrimSpace c ≠ [] := by rw [hc]; simp
  have ht : f.Tag ≠ [] := by
    intro he
    rw [he] at hs
    have hlen := congrArg List.length hs
    simp only [Split, List.length_cons, List.length_nil, List.length_append] at hlen
    have hpre : pre = [] := List.length_eq_zero.mp (by omega)
    subst hpre
    simp only [Split, List.nil_append, List.cons.injEq] at hs
    rw [← hs.1] at hne
    exact hne rfl
  rw [fieldErrors_exported f v hx ht, hs, clauseErrors_append, clauseErrors_cons]
  rw [if_neg hne, hc]
  simp only [specClauseError, cut_append_sep K P hK, dispatch, hk.1, hk.2.1, hk.2.2.1, hk.2.2.2,
    if_false]
  rfl

/-- Witness of C5: the string field "hi" tagged `min:5; len :2;max:1`, whose
middle clause has the kind `len ` with a trailing space. -/
theorem Validate_unknown_kind_witness :
    Split ';' "min:5; len :2;max:1".toList =
      ["min:5".toList] ++ " len :2".toList :: ["max:1".toList] ∧
    TrimSpace " len :2".toList = "len ".toList ++ ':' :: "2".toList ∧
    fieldErrors ({ Name := "F".toList, IsExported := true, Tag := "min:5; len :2;max:1".toList },
        Value.str "hi".toList) =
      [NewValidationError ErrMinValidationFailed "F".toList,
        NewValidationError ErrInvalidValidatorSyntax "F".toList,
        NewValidationError ErrMaxValidationFailed "F".toList] :=
  ⟨by decide, by decide,
    (Validate_unknown_kind
      { Name := "F".toList, IsExported := true, Tag := "min:5; len :2;max:1".toList }
      (Value.str "hi".toList) ["min:5".toList] ["max:1".toList] " len :2".toList
      "len ".toList "2".toList
      (by decide) (by decide) (by decide) (by decide) (by decide)).trans (by decide)⟩


/-- Counterexample to C6 as stated: `9223372036854775808` is a base-10 literal
denoting a non-negative number different from the length of "ab", and yet
`len` yields invalid-syntax on it, not len-failed. -/
theorem validateLen_large_literal :
    decimalValue "9223372036854775808".toList = some 9223372036854775808 ∧
    (byteLen "ab".toList : Int) ≠ 9223372036854775808 ∧
    validateLen (Value.str "ab".toList) "9223372036854775808".toList "F".toList =
      some (NewValidationError ErrInvalidValidatorSyntax "F".toList) ∧
    validateLen (Value.str "ab".toList) "9223372036854775808".toList "F".toList ≠
      some (NewValidationError ErrLenValidationFailed "F".toList) := by
  decide

/-- C6, amended: on a string value, `len` with a base-10 literal denoting `N`
with `0 ≤ N ≤ 2^63 - 1` passes exactly when the byte length equals `N` and
otherwise yields exactly len-failed; with a parameter that is no base-10
literal, or denotes a negative number or one above `2^63 - 1`, it yields
invalid-syntax. "ab" with `len:5` gives len-failed, and every string with
`len:abc` gives invalid-syntax. -/
theorem validateLen_string :
    (∀ s P name : GoString,
      validateLen (Value.str s) P name =
        match decimalValue P with
        | some N =>
          if 0 ≤ N ∧ N < 2 ^ 63 then
            if (byteLen s : Int) = N then none
            else some (NewValidationError ErrLenValidationFailed name)
          else some (NewValidationError ErrInvalidValidatorSyntax name)
        | none => some (NewValidationError ErrInvalidValidatorSyntax name)) ∧
    validateLen (Value.str "ab".toList) "5".toList "F".toList =
      some (NewValidationError ErrLenValidationFailed "F".toList) ∧
    (∀ s name : GoString, validateLen (Value.str s) "abc".toList name =
      some (NewValidationError ErrInvalidValidatorSyntax name)) := by
  have main : ∀ s P name : GoString,
      validateLen (Value.str s) P name =
        match decimalValue P with
        | some N =>
          if 0 ≤ N ∧ N < 2 ^ 63 then
            if (byteLen s : Int) = N then none
            else some (NewValidationError ErrLenValidationFailed name)
          else some (NewValidationError ErrInvalidValidatorSyntax name)
        | none => some (NewValidationError ErrInvalidValidatorSyntax name) := by
    intro s P name
    cases hd : decimalValue P with
    | none =>
      have he := Atoi_err P (by intro z hz; rw [hd] at hz; cases hz)
      simp [validateLen, he]
    | some N =>
      by_cases hr : inInt64 N
      · have ha := Atoi_ok P N hd hr
        unfold inInt64 at hr
        by_cases h0 : 0 ≤ N
        · have hlt : ¬ N < 0 := by omega
          dsimp only
          rw [if_pos ⟨h0, hr.2⟩]
          simp [validateLen, ha, hlt]
        · have hlt : N < 0 := by omega
          dsimp only
          rw [if_neg (fun hc => h0 hc.1)]
          simp [validateLen, ha, hlt]
      · have he := Atoi_err P (by intro z hz; rw [hd] at hz; cases hz; exact hr)
        have hn : ¬ (0 ≤ N ∧ N < 2 ^ 63) := by
          unfold inInt64 at hr; omega
        dsimp only
        rw [if_neg hn]
        simp [validateLen, he]
  refine ⟨main, by decide, ?_⟩
  intro s name
  rw [main]
  rfl


theorem Split_ne_nil (sep : Char) : ∀ s : GoString, Split sep s ≠ [] := by
  intro s
  induction s with
  | nil => simp [Split]
  | cons c cs ih =>
    simp only [Split]
    split
    · simp
    · split <;> simp

theorem inStringLoop_iff (val : GoString) : ∀ opts : List GoString,
    inStringLoop val opts = true ↔ ∃ piece ∈ opts, TrimSpace piece = val := by
  intro opts
  induction opts with
  | nil => simp [inStringLoop]
  | cons o os ih =>
    simp only [inStringLoop, List.mem_cons, exists_eq_or_imp]
    by_cases h : TrimSpace o = val
    · simp [h]
    · simp [h, ih]

theorem inIntLoop_iff (val : Int) : ∀ opts : List GoString,
    inIntLoop val opts = true ↔
      ∃ piece ∈ opts, decimalValue (TrimSpace piece) = some val ∧ inInt64 val := by
  intro opts
  induction opts with
  | nil => simp [inIntLoop]
  | cons o os ih =>
    simp only [inIntLoop, List.mem_cons, exists_eq_or_imp]
    rw [← ParseInt_iff (TrimSpace o) 64 (Or.inr rfl) val]
    by_cases he : (ParseInt (TrimSpace o) 64).2 = none
    · by_cases hv : val = (ParseInt (TrimSpace o) 64).1
      · have : ParseInt (TrimSpace o) 64 = (val, none) := by
          rw [hv, ← he]
        simp [he, ← hv, this]
      · have : ParseInt (TrimSpace o) 64 ≠ (val, none) := by
          intro hc; rw [hc] at hv; exact hv rfl
        simp [he, hv, this, ih]
    · have : ParseInt (TrimSpace o) 64 ≠ (val, none) := by
        intro hc; rw [hc] at he; exact he rfl
      simp [he, this, ih]

/-- C7: on a string value `s` and a non-empty parameter `P`, `in` passes if
and only if `s` equals some comma-separated piece of `P` after that piece is
trimmed of surrounding white space (`s` itself is not trimmed), and otherwise
yields exactly in-failed. -/
theorem validateIn_string (s P name : GoString) (hP : P ≠ []) :
    (validateIn (Value.str s) P name = none ↔
      ∃ piece ∈ Split ',' P, TrimSpace piece = s) ∧
    ((¬ ∃ piece ∈ Split ',' P, TrimSpace piece = s) →
      validateIn (Value.str s) P name = some (NewValidationError ErrInValidationFailed name)) := by
  have hlen : (Split ',' P).length ≠ 0 := by
    intro h; exact Split_ne_nil ',' P (List.length_eq_zero.mp h)
  have hv : validateIn (Value.str s) P name =
      if inStringLoop s (Split ',' P) then none
      else some (NewValidationError ErrInValidationFailed name) := by
    simp only [validateIn, hP, hlen, if_false]
  rw [hv, ← inStringLoop_iff]
  by_cases h : inStringLoop s (Split ',' P) = true <;> simp [h]

/-- Witness of C7: "red" passes `in:red,green,blue`, also with blanks around
the options, while " red" with a leading blank fails it. -/
theorem validateIn_string_witness :
    "red,green,blue".toList ≠ [] ∧
    validateIn (Value.str "red".toList) "red,green,blue".toList "F".toList = none ∧
    validateIn (Value.str "red".toList) "green , red ,blue".toList "F".toList = none ∧
    validateIn (Value.str " red".toList) "red,green,blue".toList "F".toList =
      some (NewValidationError ErrInValidationFailed "F".toList) :=
  ⟨by decide,
    (validateIn_string "red".toList "red,green,blue".toList "F".toList (by decide)).1.mpr
      (by decide),
    by decide,
    (validateIn_string " red".toList "red,green,blue".toList "F".toList (by decide)).2
      (by decide)⟩

/-- C9: with a base-10 literal denoting `M` within the signed 64-bit range,
`min` passes on a string value iff its byte length is at least `M` and on an
`int` value `v` iff `v ≥ M`, and otherwise yields exactly min-failed for the
field; `M` may be negative, and then every string passes. -/
theorem validateMin_literal (P name : GoString) (M : Int) (hP : decimalValue P = some M)
    (hM : inInt64 M) :
    (∀ s : GoString, validateMin (Value.str s) P name =
      if M ≤ (byteLen s : Int) then none
      else some (NewValidationError ErrMinValidationFailed name)) ∧
    (∀ v : Int, validateMin (Value.int v) P name =
      if M ≤ v then none else some (NewValidationError ErrMinValidationFailed name)) ∧
    (M < 0 → ∀ s : GoString, validateMin (Value.str s) P name = none) := by
  have ha := Atoi_ok P M hP hM
  have hs : ∀ s : GoString, validateMin (Value.str s) P name =
      if M ≤ (byteLen s : Int) then none
      else some (NewValidationError ErrMinValidationFailed name) := by
    intro s
    by_cases h : M ≤ (byteLen s : Int)
    · have h2 : ¬ (byteLen s : Int) < M := by omega
      simp [validateMin, ha, h, h2]
    · have h2 : (byteLen s : Int) < M := by omega
      simp [validateMin, ha, h, h2]
  refine ⟨hs, ?_, ?_⟩
  · intro v
    by_cases h : M ≤ v
    · have h2 : ¬ v < M := by omega
      simp [validateMin, ha, h, h2]
    · have h2 : v < M := by omega
      simp [validateMin, ha, h, h2]
  · intro hneg s
    rw [hs s, if_pos (by omega)]

/-- Witness of C9: the parameter `-3`, which every string passes, and the
parameter `5`, which "hi" and 4 fail and 5 passes. -/
theorem validateMin_literal_witness :
    decimalValue "-3".toList = some (-3) ∧ inInt64 (-3) ∧
    (∀ s : GoString, validateMin (Value.str s) "-3".toList "F".toList = none) ∧
    validateMin (Value.str "hi".toList) "5".toList "F".toList =
      some (NewValidationError ErrMinValidationFailed "F".toList) ∧
    validateMin (Value.int 4) "5".toList "F".toList =
      some (NewValidationError ErrMinValidationFailed "F".toList) ∧
    validateMin (Value.int 5) "5".toList "F".toList = none :=
  ⟨by decide, by decide,
    (validateMin_literal "-3".toList "F".toList (-3) (by decide) (by decide)).2.2 (by decide),
    by decide, by decide, by decide⟩

/-- C10: with a base-10 literal denoting `M` within the signed 64-bit range,
`max` passes on a string value iff its byte length is at most `M` and on an
`int` value `v` iff `v ≤ M`, and otherwise yields exactly max-failed for the
field; `M` may be negative, and then every string fails. -/
theorem validateMax_literal (P name : GoString) (M : Int) (hP : decimalValue P = some M)
    (hM : inInt64 M) :
    (∀ s : GoString, validateMax (Value.str s) P name =
      if (byteLen s : Int) ≤ M then none
      else some (NewValidationError ErrMaxValidationFailed name)) ∧
    (∀ v : Int, validateMax (Value.int v) P name =
      if v ≤ M then none else some (NewValidationError ErrMaxValidationFailed name)) ∧
    (M < 0 → ∀ s : GoString, validateMax (Value.str s) P name =
      some (NewValidationError ErrMaxValidationFailed name)) := by
  have ha := Atoi_ok P M hP hM
  have hs : ∀ s : GoString, validateMax (Value.str s) P name =
      if (byteLen s : Int) ≤ M then none
      else some (NewValidationError ErrMaxValidationFailed name) := by
    intro s
    by_cases h : (byteLen s : Int) ≤ M
    · have h2 : ¬ M < (byteLen s : Int) := by omega
      simp [validateMax, ha, h, h2]
    · have h2 : M < (byteLen s : Int) := by omega
      simp [validateMax, ha, h, h2]
  refine ⟨hs, ?_, ?_⟩
  · intro v
    by_cases h : v ≤ M
    · have h2 : ¬ M < v := by omega
      simp [validateMax, ha, h, h2]
    · have h2 : M < v := by omega
      simp [validateMax, ha, h, h2]
  · intro hneg s
    rw [hs s, if_neg (by omega)]

/-- Witness of C10: the parameter `-3`, which every string fails, and the
parameter `1`, which "hi" and 2 fail and 1 passes. -/
theorem validateMax_literal_witness :
    decimalValue "-3".toList = some (-3) ∧ inInt64 (-3) ∧
    (∀ s : GoString, validateMax (Value.str s) "-3".toList "F".toList =
      some (NewValidationError ErrMaxValidationFailed "F".toList)) ∧
    validateMax (Value.str "hi".toList) "1".toList "F".toList =
      some (NewValidationError ErrMaxValidationFailed "F".toList) ∧
    validateMax (Value.int 2) "1".toList "F".toList =
      some (NewValidationError ErrMaxValidationFailed "F".toList) ∧
    validateMax (Value.int 1) "1".toList "F".toList = none :=
  ⟨by decide, by decide,
    (validateMax_literal "-3".toList "F".toList (-3) (by decide) (by decide)).2.2 (by decide),
    by decide, by decide, by decide⟩

/-! ## Type mismatches and parameter checks -/

/-- C11: a rule applied to a value shape it does not support (`len` on any
value that is no string; `in` with a non-empty parameter, `min` and `max` with
a literal denoting a 64-bit integer, on a value that is neither a string nor
an `int`) yields
exactly one error for the field, whose cause is a fresh type-mismatch error
naming the rule and the kind of the value: it is no sentinel and matches none
of the seven sentinels. -/
theorem rule_type_mismatch (v : Value) (P name : GoString) (hs : v.Kind ≠ Kind.String) :
    validateLen v P name =
      some (NewValidationError
        (Errorf ("len requires string, got ".toList ++ v.Kind.Name)) name) ∧
    (v.Kind ≠ Kind.Int → P ≠ [] →
      validateIn v P name =
        some (NewValidationError
          (Errorf ("in requires string or int, got ".toList ++ v.Kind.Name)) name)) ∧
    (v.Kind ≠ Kind.Int → ∀ M, decimalValue P = some M → inInt64 M →
      validateMin v P name =
        some (NewValidationError
          (Errorf ("min requires string or int, got ".toList ++ v.Kind.Name)) name) ∧
      validateMax v P name =
        some (NewValidationError
          (Errorf ("max requires string or int, got ".toList ++ v.Kind.Name)) name)) ∧
    (∀ msg target, target.isSentinel = true →
      (Errorf msg).isSentinel = false ∧
      (NewValidationError (Errorf msg) name).Is target = false) := by
  refine ⟨?_, ?_, ?_, ?_⟩
  · cases v with
    | str s => exact absurd rfl hs
    | int n => rfl
    | struct fs => rfl
    | ptr p => rfl
    | other k hk => rfl
  · intro hi hP
    have hlen : (Split ',' P).length ≠ 0 := by
      intro h; exact Split_ne_nil ',' P (List.length_eq_zero.mp h)
    cases v with
    | str s => exact absurd rfl hs
    | int n => exact absurd rfl hi
    | struct fs => simp only [validateIn, hP, hlen, if_false]
    | ptr p => simp only [validateIn, hP, hlen, if_false]
    | other k hk => simp only [validateIn, hP, hlen, if_false]
  · intro hi M hM hr
    have ha : (Atoi P).2 = none := by rw [Atoi_ok P M hM hr]
    cases v with
    | str s => exact absurd rfl hs
    | int n => exact absurd rfl hi
    | struct fs =>
      exact ⟨by simp only [validateMin, ha, ne_eq, not_true, if_false],
        by simp only [validateMax, ha, ne_eq, not_true, if_false]⟩
    | ptr p =>
      exact ⟨by simp only [validateMin, ha, ne_eq, not_true, if_false],
        by simp only [validateMax, ha, ne_eq, not_true, if_false]⟩
    | other k hk =>
      exact ⟨by simp only [validateMin, ha, ne_eq, not_true, if_false],
        by simp only [validateMax, ha, ne_eq, not_true, if_false]⟩
  · intro msg target ht
    refine ⟨rfl, ?_⟩
    simp [ValidationError.Is, ValidationError.Unwrap, NewValidationError, Cause.same,
      Cause.isSentinel]

/-- Witness of C11: an `int` field tagged `len:3` gets one error, whose cause
is the fresh error "len requires string, got int" and matches no len-failed. -/
theorem rule_type_mismatch_witness :
    (Value.int 7).Kind ≠ Kind.String ∧
    Validate (Value.struct
        [({ Name := "F".toList, IsExported := true, Tag := "len:3".toList }, Value.int 7)]) =
      some (GoError.join
        [NewValidationError (Errorf "len requires string, got int".toList) "F".toList]) ∧
    (NewValidationError (Errorf "len requires string, got int".toList) "F".toList).Is
      ErrLenValidationFailed = false :=
  ⟨by decide, by decide,
    ((rule_type_mismatch (Value.int 7) "3".toList "F".toList (by decide)).2.2.2
      "len requires string, got int".toList ErrLenValidationFailed rfl).2⟩

/-- C12: with an empty parameter (clause `in:`), `in` yields exactly
invalid-syntax on a value of every shape, and so neither in-failed nor a
type-mismatch error. -/
theorem validateIn_empty_param :
    (∀ (v : Value) (name : GoString),
      validateIn v [] name = some (NewValidationError ErrInvalidValidatorSyntax name)) ∧
    (∀ (v : Value) (name : GoString),
      fieldErrors ({ Name := name, IsExported := true, Tag := "in:".toList }, v) =
        [NewValidationError ErrInvalidValidatorSyntax name]) := by
  have h : ∀ (v : Value) (name : GoString),
      validateIn v [] name = some (NewValidationError ErrInvalidValidatorSyntax name) := by
    intro v name
    simp [validateIn]
  refine ⟨h, ?_⟩
  intro v name
  rw [fieldErrors_exported _ v rfl (by simp)]
  have hsplit : Split ';' "in:".toList = ["in:".toList] := by decide
  have htrim : TrimSpace "in:".toList = "in".toList ++ ':' :: [] := by decide
  simp only [hsplit, clauseErrors_cons, clauseErrors_nil, List.append_nil]
  rw [if_neg (by decide), htrim]
  simp only [specClauseError, cut_append_sep "in".toList [] (by decide), dispatch]
  rw [if_neg (by decide)]
  simp only [if_true, h]
  rfl


/-! ## Splitting of tags and clauses -/

theorem Split_append_sep (sep : Char) : ∀ a b : GoString,
    Split sep (a ++ sep :: b) = Split sep a ++ Split sep b := by
  intro a
  induction a with
  | nil => intro b; simp [Split]
  | cons c cs ih =>
    intro b
    by_cases hc : c = sep
    · simp [Split, hc, ih]
    · have h1 : Split sep (c :: (cs ++ sep :: b)) =
          match Split sep (cs ++ sep :: b) with
          | [] => [[c]]
          | p :: ps => (c :: p) :: ps := by simp only [Split, hc, if_false]
      have h2 : Split sep (c :: cs) =
          match Split sep cs with
          | [] => [[c]]
          | p :: ps => (c :: p) :: ps := by simp only [Split, hc, if_false]
      rw [List.cons_append, h1, h2, ih]
      cases hs : Split sep cs with
      | nil => exact absurd hs (Split_ne_nil sep cs)
      | cons p ps => rfl

theorem mem_of_mem_Split (sep : Char) : ∀ (s p : GoString), p ∈ Split sep s →
    ∀ c ∈ p, c ∈ s ∧ c ≠ sep := by
  intro s
  induction s with
  | nil =>
    intro p hp c hc
    simp only [Split, List.mem_singleton] at hp
    subst hp
    cases hc
  | cons d ds ih =>
    intro p hp c hc
    by_cases hd : d = sep
    · simp only [Split, hd, if_true, List.mem_cons] at hp
      rcases hp with hp | hp
      · subst hp; cases hc
      · exact ⟨List.mem_cons_of_mem _ (ih p hp c hc).1, (ih p hp c hc).2⟩
    · simp only [Split, hd, if_false] at hp
      cases hs : Split sep ds with
      | nil => exact absurd hs (Split_ne_nil sep ds)
      | cons q qs =>
        rw [hs] at hp ih
        simp only [List.mem_cons] at hp
        rcases hp with hp | hp
        · subst hp
          simp only [List.mem_cons] at hc
          rcases hc with hc | hc
          · subst hc; exact ⟨List.mem_cons_self _ _, hd⟩
          · have := ih q (List.mem_cons_self _ _) c hc
            exact ⟨List.mem_cons_of_mem _ this.1, this.2⟩
        · have := ih p (List.mem_cons_of_mem _ hp) c hc
          exact ⟨List.mem_cons_of_mem _ this.1, this.2⟩

theorem trimLeft_all_space : ∀ s : GoString, (∀ c ∈ s, isSpace c = true) → trimLeft s = [] := by
  intro s
  induction s with
  | nil => intro _; rfl
  | cons c cs ih =>
    intro h
    simp only [trimLeft, h c (List.mem_cons_self _ _), if_true]
    exact ih (fun d hd => h d (List.mem_cons_of_mem _ hd))

theorem TrimSpace_all_space (s : GoString) (h : ∀ c ∈ s, isSpace c = true) :
    TrimSpace s = [] := by
  unfold TrimSpace
  rw [trimLeft_all_space s h]
  rfl

theorem clauseErrors_blank (fv : Value) (name : GoString) : ∀ cs : List GoString,
    (∀ p ∈ cs, TrimSpace p = []) → clauseErrors fv name cs = [] := by
  intro cs
  induction cs with
  | nil => intro _; rfl
  | cons p ps ih =>
    intro h
    rw [clauseErrors_cons, if_pos (h p (List.mem_cons_self _ _)),
      ih (fun q hq => h q (List.mem_cons_of_mem _ hq))]
    rfl

/-- An exported field contributes the errors of the pieces of its rule
string, also when the rule string is empty. -/
theorem fieldErrors_exported_any (f : StructField) (v : Value) (hx : f.IsExported = true) :
    fieldErrors (f, v) = clauseErrors v f.Name (Split ';' f.Tag) := by
  by_cases ht : f.Tag = []
  · rw [ht]
    unfold fieldErrors fieldStep
    simp only [ht, ne_eq, not_true, and_false, if_false, if_true]
    rfl
  · exact fieldErrors_exported f v hx ht

/-- C13: the rules of one exported field are applied independently and in
order: the errors for the rule string `t1;t2` are those for `t1` followed by
those for `t2`; a rule string made of blanks and `;` only yields no error, so
that adding one before or after a rule string changes nothing. -/
theorem fieldErrors_concat (name t1 t2 w : GoString) (v : Value)
    (hw : ∀ c ∈ w, isSpace c = true ∨ c = ';') :
    fieldErrors ({ Name := name, IsExported := true, Tag := t1 ++ ';' :: t2 }, v) =
      fieldErrors ({ Name := name, IsExported := true, Tag := t1 }, v) ++
        fieldErrors ({ Name := name, IsExported := true, Tag := t2 }, v) ∧
    fieldErrors ({ Name := name, IsExported := true, Tag := w }, v) = [] ∧
    fieldErrors ({ Name := name, IsExported := true, Tag := t1 ++ ';' :: w }, v) =
      fieldErrors ({ Name := name, IsExported := true, Tag := t1 }, v) ∧
    fieldErrors ({ Name := name, IsExported := true, Tag := w ++ ';' :: t1 }, v) =
      fieldErrors ({ Name := name, IsExported := true, Tag := t1 }, v) := by
  have hcat : ∀ a b : GoString,
      fieldErrors ({ Name := name, IsExported := true, Tag := a ++ ';' :: b }, v) =
        fieldErrors ({ Name := name, IsExported := true, Tag := a }, v) ++
          fieldErrors ({ Name := name, IsExported := true, Tag := b }, v) := by
    intro a b
    rw [fieldErrors_exported_any _ v rfl, fieldErrors_exported_any _ v rfl,
      fieldErrors_exported_any _ v rfl]
    simp only [Split_append_sep, clauseErrors_append]
  have hblank : fieldErrors ({ Name := name, IsExported := true, Tag := w }, v) = [] := by
    rw [fieldErrors_exported_any _ v rfl]
    apply clauseErrors_blank
    intro p hp
    apply TrimSpace_all_space
    intro c hc
    have hm := mem_of_mem_Split ';' w p hp c hc
    rcases hw c hm.1 with h | h
    · exact h
    · exact absurd h hm.2
  refine ⟨hcat t1 t2, hblank, ?_, ?_⟩
  · rw [hcat, hblank, List.append_nil]
  · rw [hcat, hblank, List.nil_append]

/-- Witness of C13: `min:5;max:1` on "hi", and the blank rule string ` ; `. -/
theorem fieldErrors_concat_witness :
    (∀ c ∈ " ; ".toList, isSpace c = true ∨ c = ';') ∧
    fieldErrors
        ({ Name := "F".toList, IsExported := true, Tag := "min:5".toList ++ ';' :: "max:1".toList },
          Value.str "hi".toList) =
      [NewValidationError ErrMinValidationFailed "F".toList,
        NewValidationError ErrMaxValidationFailed "F".toList] ∧
    fieldErrors
        ({ Name := "F".toList, IsExported := true, Tag := "min:5".toList ++ ';' :: " ; ".toList },
          Value.str "hi".toList) =
      [NewValidationError ErrMinValidationFailed "F".toList] :=
  ⟨by decide,
    (fieldErrors_concat "F".toList "min:5".toList "max:1".toList " ; ".toList
      (Value.str "hi".toList) (by decide)).1.trans (by decide),
    (fieldErrors_concat "F".toList "min:5".toList "max:1".toList " ; ".toList
      (Value.str "hi".toList) (by decide)).2.2.1.trans (by decide)⟩


/-- An exported field whose rule string is the single clause `K:P` contributes
the outcome of the rule that `K` selects. -/
theorem fieldErrors_single_clause (name tag K P : GoString) (v : Value)
    (hsplit : Split ';' tag = [tag]) (htrim : TrimSpace tag = K ++ ':' :: P) (hK : ':' ∉ K) :
    fieldErrors ({ Name := name, IsExported := true, Tag := tag }, v) =
      (dispatch v name K P).toList := by
  rw [fieldErrors_exported_any _ v rfl]
  simp only [hsplit, clauseErrors_cons, clauseErrors_nil, List.append_nil]
  rw [if_neg (by rw [htrim]; simp), htrim]
  simp only [specClauseError, cut_append_sep K P hK]

/-- C14: a clause is split into kind and parameter at its first `:` only, the
parameter keeping any further `:`. The clause `in:a:b,c` on an exported string
field has kind `in` and options `a:b` and `c`: it passes for "a:b" and yields
in-failed, not invalid-syntax, for "a". -/
theorem clause_split_first_colon (K P name : GoString) (hK : ':' ∉ K) :
    SplitN ':' (K ++ ':' :: P) 2 = [K, P] ∧
    SplitN ':' "in:a:b,c".toList 2 = ["in".toList, "a:b,c".toList] ∧
    Split ',' "a:b,c".toList = ["a:b".toList, "c".toList] ∧
    fieldErrors ({ Name := name, IsExported := true, Tag := "in:a:b,c".toList },
        Value.str "a:b".toList) = [] ∧
    fieldErrors ({ Name := name, IsExported := true, Tag := "in:a:b,c".toList },
        Value.str "a".toList) = [NewValidationError ErrInValidationFailed name] := by
  have hfield : ∀ s : GoString,
      fieldErrors ({ Name := name, IsExported := true, Tag := "in:a:b,c".toList },
          Value.str s) =
        (validateIn (Value.str s) "a:b,c".toList name).toList := by
    intro s
    rw [fieldErrors_single_clause name "in:a:b,c".toList "in".toList "a:b,c".toList
      (Value.str s) (by decide) (by decide) (by decide)]
    simp only [dispatch]
    rw [if_neg (by decide)]
    simp only [if_true]
  have hin : ∀ s : GoString, validateIn (Value.str s) "a:b,c".toList name =
      if inStringLoop s (Split ',' "a:b,c".toList) then none
      else some (NewValidationError ErrInValidationFailed name) := by
    intro s
    have hP : "a:b,c".toList ≠ [] := by decide
    have hlen : (Split ',' "a:b,c".toList).length ≠ 0 := by decide
    simp only [validateIn, hP, hlen, if_false]
  refine ⟨?_, by decide, by decide, ?_, ?_⟩
  · rw [SplitN_two, cut_append_sep K P hK]
  · rw [hfield, hin, if_pos (by decide)]
    rfl
  · rw [hfield, hin, if_neg (by decide)]
    rfl

/-- Witness of C14: the kind `in` of the clause `in:a:b,c`, on a field `F`. -/
theorem clause_split_first_colon_witness :
    ':' ∉ "in".toList ∧
    SplitN ':' ("in".toList ++ ':' :: "a:b,c".toList) 2 = ["in".toList, "a:b,c".toList] ∧
    Validate (Value.struct
        [({ Name := "F".toList, IsExported := true, Tag := "in:a:b,c".toList },
          Value.str "a".toList)]) =
      some (GoError.join [NewValidationError ErrInValidationFailed "F".toList]) :=
  ⟨by decide,
    (clause_split_first_colon "in".toList "a:b,c".toList "F".toList (by decide)).1,
    by decide⟩

/-- Every error a rule function returns is attributed to the field it was
called for. -/
theorem rule_error_field (v : Value) (P name : GoString) (e : ValidationError)
    (h : validateLen v P name = some e ∨ validateIn v P name = some e ∨
      validateMin v P name = some e ∨ validateMax v P name = some e) : e.field = name := by
  rcases h with h | h | h | h
  · unfold validateLen at h
    cases v <;> (try dsimp only at h) <;> (try split_ifs at h) <;> (cases h; rfl)
  · unfold validateIn at h
    cases v <;> (try dsimp only at h) <;> (try split_ifs at h) <;> (cases h; rfl)
  · unfold validateMin at h
    cases v <;> (try dsimp only at h) <;> (try split_ifs at h) <;> (cases h; rfl)
  · unfold validateMax at h
    cases v <;> (try dsimp only at h) <;> (try split_ifs at h) <;> (cases h; rfl)

/-- C15: `NewValidationError(e, f)` renders as `f`, then ": ", then the message
of `e`, and unwraps to exactly `e`; it matches a target exactly when `e` is a
sentinel and the target is that sentinel, and a join matches exactly when one
of the errors it wraps does. Every error of a rule function carries the name of
its field and renders as that name, ": " and the message of its cause. A len
failure on field `F` renders as "F: len validation failed" and matches
`ErrLenValidationFailed` and no other sentinel, also through the join that
`Validate` returns; the type-mismatch error of `len:3` on an `int` keeps its
cause, and matches neither a sentinel nor another error of the same text. -/
theorem ValidationError_render_unwrap :
    (∀ (e : Cause) (f : GoString),
      (NewValidationError e f).Error = f ++ ": ".toList ++ e.Error ∧
      (NewValidationError e f).Unwrap = e ∧
      (∀ target, (NewValidationError e f).Is target = true ↔
        e.isSentinel = true ∧ e = target)) ∧
    (∀ (errs : List ValidationError) (target : Cause),
      (GoError.join errs).Is target = true ↔
        ∃ e ∈ errs, e.Unwrap.isSentinel = true ∧ e.Unwrap = target) ∧
    (∀ (v : Value) (P name : GoString) (e : ValidationError),
      (validateLen v P name = some e ∨ validateIn v P name = some e ∨
        validateMin v P name = some e ∨ validateMax v P name = some e) →
      e.field = name ∧ e.Error = name ++ ": ".toList ++ e.Unwrap.Error) ∧
    (validateLen (Value.str "ab".toList) "5".toList "F".toList).map ValidationError.Error =
      some "F: len validation failed".toList ∧
    (validateLen (Value.str "ab".toList) "5".toList "F".toList).map ValidationError.Unwrap =
      some ErrLenValidationFailed ∧
    (Validate (Value.struct
        [({ Name := "F".toList, IsExported := true, Tag := "len:5".toList },
          Value.str "ab".toList)])).map
      (fun g => (g.Is ErrLenValidationFailed, g.Is ErrInvalidValidatorSyntax,
        g.Is ErrMinValidationFailed)) = some (true, false, false) ∧
    (Validate (Value.struct
        [({ Name := "F".toList, IsExported := true, Tag := "len:3".toList },
          Value.int 7)])).map
      (fun g => (g.fieldErrors.map ValidationError.Error,
        g.fieldErrors.map ValidationError.Unwrap,
        g.Is ErrLenValidationFailed,
        g.Is (Errorf "len requires string, got int".toList))) =
      some (["F: len requires string, got int".toList],
        [Errorf "len requires string, got int".toList], false, false) := by
  refine ⟨?_, ?_, ?_, by decide, by decide, by decide, by decide⟩
  · intro e f
    refine ⟨rfl, rfl, ?_⟩
    intro target
    simp [ValidationError.Is, ValidationError.Unwrap, NewValidationError, Cause.same]
  · intro errs target
    simp [GoError.Is, ValidationError.Is, Cause.same]
  · intro v P name e h
    have hf := rule_error_field v P name e h
    refine ⟨hf, ?_⟩
    unfold ValidationError.Error
    rw [hf]
    rfl

/-- C16: integer parameters of `min` and `max` are handled without
wrap-around. A base-10 literal denoting `M` within the signed 64-bit range is
compared exactly with an `int` value; a literal denoting a number outside that
range yields invalid-syntax on every value, of any shape. -/
theorem param_int64_no_wrap (P name : GoString) (M : Int) (hP : decimalValue P = some M) :
    (inInt64 M → ∀ v : Int,
      (validateMin (Value.int v) P name = none ↔ M ≤ v) ∧
      (validateMin (Value.int v) P name ≠ none →
        validateMin (Value.int v) P name =
          some (NewValidationError ErrMinValidationFailed name)) ∧
      (validateMax (Value.int v) P name = none ↔ v ≤ M) ∧
      (validateMax (Value.int v) P name ≠ none →
        validateMax (Value.int v) P name =
          some (NewValidationError ErrMaxValidationFailed name))) ∧
    (¬ inInt64 M → ∀ fv : Value,
      validateMin fv P name = some (NewValidationError ErrInvalidValidatorSyntax name) ∧
      validateMax fv P name = some (NewValidationError ErrInvalidValidatorSyntax name)) := by
  constructor
  · intro hM v
    have ha := Atoi_ok P M hP hM
    have hmin : validateMin (Value.int v) P name =
        if v < M then some (NewValidationError ErrMinValidationFailed name) else none := by
      simp [validateMin, ha]
    have hmax : validateMax (Value.int v) P name =
        if v > M then some (NewValidationError ErrMaxValidationFailed name) else none := by
      simp [validateMax, ha]
    rw [hmin, hmax]
    by_cases h1 : v < M <;> by_cases h2 : v > M <;> simp [h1, h2] <;> omega
  · intro hM fv
    have he := Atoi_err P (by intro z hz; rw [hP] at hz; cases hz; exact hM)
    exact ⟨by simp only [validateMin, he, ne_eq, not_false_eq_true, if_true],
      by simp only [validateMax, he, ne_eq, not_false_eq_true, if_true]⟩

/-- Witness of C16: the literal `9223372036854775808`, one above the largest
64-bit integer, on the `int` value 0 and on a value of kind `bool`. -/
theorem param_int64_no_wrap_witness :
    decimalValue "9223372036854775808".toList = some 9223372036854775808 ∧
    ¬ inInt64 9223372036854775808 ∧
    validateMin (Value.int 0) "9223372036854775808".toList "F".toList =
      some (NewValidationError ErrInvalidValidatorSyntax "F".toList) ∧
    validateMax (Value.other Kind.Bool (by decide)) "9223372036854775808".toList "F".toList =
      some (NewValidationError ErrInvalidValidatorSyntax "F".toList) :=
  ⟨by decide, by decide,
    ((param_int64_no_wrap "9223372036854775808".toList "F".toList 9223372036854775808
      (by decide)).2 (by decide) (Value.int 0)).1,
    ((param_int64_no_wrap "9223372036854775808".toList "F".toList 9223372036854775808
      (by decide)).2 (by decide) (Value.other Kind.Bool (by decide))).2⟩

/-- C17: a field whose rule string is empty, exported or not and whatever its
value, contributes no error, and the errors of the record are those of the
record without that field. -/
theorem Validate_empty_tag (pre post : List (StructField × Value)) (f : StructField)
    (v : Value) (ht : f.Tag = []) :
    fieldErrors (f, v) = [] ∧
    collect (pre ++ (f, v) :: post) = collect (pre ++ post) ∧
    Validate (Value.struct (pre ++ (f, v) :: post)) = Validate (Value.struct (pre ++ post)) := by
  have h1 : fieldErrors (f, v) = [] := by
    unfold fieldErrors fieldStep
    simp [ht]
  have h2 : collect (pre ++ (f, v) :: post) = collect (pre ++ post) := by
    rw [collect_append, collect_cons, h1, collect_append]
    rfl
  refine ⟨h1, h2, ?_⟩
  rw [Validate_struct, Validate_struct, h2]

/-- Witness of C17: an unexported field of kind `bool` without rule string,
between two fields that violate their rules. -/
theorem Validate_empty_tag_witness :
    ({ Name := "b".toList, IsExported := false, Tag := [] } : StructField).Tag = [] ∧
    Validate (Value.struct
        ([({ Name := "A".toList, IsExported := true, Tag := "len:5".toList },
            Value.str "ab".toList)] ++
          ({ Name := "b".toList, IsExported := false, Tag := [] },
            Value.other Kind.Bool (by decide)) ::
          [({ Name := "C".toList, IsExported := true, Tag := "max:1".toList },
            Value.int 7)])) =
      some (GoError.join [NewValidationError ErrLenValidationFailed "A".toList,
        NewValidationError ErrMaxValidationFailed "C".toList]) :=
  ⟨rfl, (Validate_empty_tag _ _ _ _ rfl).2.2.trans (by decide)⟩


/-- C18: the rules differ in which check comes first. On a value that is no
string, `len` reports the type mismatch whatever its parameter is (also a
malformed or negative one), and never invalid-syntax; `min` and `max` with a
parameter that denotes no 64-bit integer report invalid-syntax whatever the
value is (also one that is neither a string nor an `int`), and never a type
mismatch. -/
theorem check_order (v : Value) (P Q name : GoString) (hs : v.Kind ≠ Kind.String)
    (hQ : ∀ z, decimalValue Q = some z → ¬ inInt64 z) :
    validateLen v P name =
      some (NewValidationError
        (Errorf ("len requires string, got ".toList ++ v.Kind.Name)) name) ∧
    validateLen v P name ≠ some (NewValidationError ErrInvalidValidatorSyntax name) ∧
    validateMin v Q name = some (NewValidationError ErrInvalidValidatorSyntax name) ∧
    validateMax v Q name = some (NewValidationError ErrInvalidValidatorSyntax name) ∧
    (∀ msg, validateMin v Q name ≠ some (NewValidationError (Errorf msg) name) ∧
      validateMax v Q name ≠ some (NewValidationError (Errorf msg) name)) := by
  have hlen : validateLen v P name =
      some (NewValidationError
        (Errorf ("len requires string, got ".toList ++ v.Kind.Name)) name) := by
    cases v with
    | str s => exact absurd rfl hs
    | int n => rfl
    | struct fs => rfl
    | ptr p => rfl
    | other k hk => rfl
  have he := Atoi_err Q hQ
  have hmin : validateMin v Q name =
      some (NewValidationError ErrInvalidValidatorSyntax name) := by
    simp only [validateMin, he, ne_eq, not_false_eq_true, if_true]
  have hmax : validateMax v Q name =
      some (NewValidationError ErrInvalidValidatorSyntax name) := by
    simp only [validateMax, he, ne_eq, not_false_eq_true, if_true]
  refine ⟨hlen, ?_, hmin, hmax, ?_⟩
  · rw [hlen]
    simp [NewValidationError]
  · intro msg
    rw [hmin, hmax]
    simp [NewValidationError]

theorem decimalValue_abc : ∀ z, decimalValue "abc".toList = some z → ¬ inInt64 z := by
  intro z hz
  rw [show decimalValue "abc".toList = none by decide] at hz
  cases hz

/-- Witness of C18: `len:abc` and `len:-1` on the `int` 7 give the mismatch
"len requires string, got int"; `min:abc` and `max:abc` on a value of kind
`bool` give invalid-syntax. -/
theorem check_order_witness :
    (Value.int 7).Kind ≠ Kind.String ∧
    (∀ z, decimalValue "abc".toList = some z → ¬ inInt64 z) ∧
    validateLen (Value.int 7) "abc".toList "F".toList =
      some (NewValidationError (Errorf "len requires string, got int".toList) "F".toList) ∧
    validateLen (Value.int 7) "-1".toList "F".toList =
      some (NewValidationError (Errorf "len requires string, got int".toList) "F".toList) ∧
    validateMin (Value.other Kind.Bool (by decide)) "abc".toList "F".toList =
      some (NewValidationError ErrInvalidValidatorSyntax "F".toList) ∧
    validateMax (Value.other Kind.Bool (by decide)) "abc".toList "F".toList =
      some (NewValidationError ErrInvalidValidatorSyntax "F".toList) :=
  ⟨by decide, decimalValue_abc,
    (check_order (Value.int 7) "abc".toList "abc".toList "F".toList (by decide)
      decimalValue_abc).1,
    (check_order (Value.int 7) "-1".toList "abc".toList "F".toList (by decide)
      decimalValue_abc).1,
    (check_order (Value.other Kind.Bool (by decide)) "abc".toList "abc".toList "F".toList
      (by decide) decimalValue_abc).2.2.1,
    (check_order (Value.other Kind.Bool (by decide)) "abc".toList "abc".toList "F".toList
      (by decide) decimalValue_abc).2.2.2.1⟩


/-! ## Trimming -/

theorem mem_of_mem_trimLeft : ∀ (s : GoString) (c : Char), c ∈ trimLeft s → c ∈ s := by
  intro s
  induction s with
  | nil => intro c h; exact h
  | cons d ds ih =>
    intro c h
    simp only [trimLeft] at h
    split at h
    · exact List.mem_cons_of_mem _ (ih c h)
    · exact h

theorem trimLeft_head : ∀ (s : GoString) (c : Char), (trimLeft s).head? = some c →
    isSpace c = false := by
  intro s
  induction s with
  | nil => intro c h; simp [trimLeft] at h
  | cons d ds ih =>
    intro c h
    simp only [trimLeft] at h
    split at h
    · exact ih c h
    · simp only [List.head?_cons, Option.some.injEq] at h
      subst h
      simpa using ‹¬ isSpace d = true›

theorem trimRight_cases : ∀ s : GoString,
    trimRight s = [] ∨ ∃ c r, s = c :: r ∧
      (trimRight s = [c] ∧ isSpace c = false ∧ trimRight r = [] ∨
        trimRight s = c :: trimRight r ∧ trimRight r ≠ []) := by
  intro s
  cases s with
  | nil => left; rfl
  | cons c r =>
    cases hr : trimRight r with
    | nil =>
      by_cases hc : isSpace c = true
      · left; simp [trimRight, hr, hc]
      · right
        exact ⟨c, r, rfl, Or.inl ⟨by simp [trimRight, hr, hc], by simpa using hc, hr⟩⟩
    | cons b bs =>
      right
      exact ⟨c, r, rfl, Or.inr ⟨by simp [trimRight, hr], by rw [hr]; simp⟩⟩

theorem mem_of_mem_trimRight : ∀ (s : GoString) (c : Char), c ∈ trimRight s → c ∈ s := by
  intro s
  induction s with
  | nil => intro c h; exact h
  | cons d ds ih =>
    intro c h
    rcases trimRight_cases (d :: ds) with h0 | ⟨e, r, he, h1 | h1⟩
    · rw [h0] at h; cases h
    · cases he
      rw [h1.1] at h
      simp only [List.mem_singleton] at h
      subst h
      exact List.mem_cons_self _ _
    · cases he
      rw [h1.1] at h
      simp only [List.mem_cons] at h
      rcases h with h | h
      · subst h; exact List.mem_cons_self _ _
      · exact List.mem_cons_of_mem _ (ih c h)

theorem trimRight_head (s : GoString) (c : Char) (h : (trimRight s).head? = some c) :
    s.head? = some c := by
  rcases trimRight_cases s with h0 | ⟨e, r, he, h1 | h1⟩
  · rw [h0] at h; cases h
  · subst he
    rw [h1.1] at h
    exact h
  · subst he
    rw [h1.1] at h
    exact h

theorem trimRight_getLast : ∀ (s : GoString) (c : Char), (trimRight s).getLast? = some c →
    isSpace c = false := by
  intro s
  induction s with
  | nil => intro c h; simp [trimRight] at h
  | cons d ds ih =>
    intro c h
    rcases trimRight_cases (d :: ds) with h0 | ⟨e, r, he, h1 | h1⟩
    · rw [h0] at h; cases h
    · cases he
      rw [h1.1] at h
      simp only [List.getLast?_singleton, Option.some.injEq] at h
      subst h
      exact h1.2.1
    · cases he
      rw [h1.1] at h
      cases hr : trimRight ds with
      | nil => exact absurd hr h1.2
      | cons b bs =>
        rw [hr, List.getLast?_cons_cons] at h
        exact ih c (by rw [hr]; exact h)

/-- A trimmed string neither begins nor ends with white space, and has no
character that the untrimmed string lacks. -/
theorem TrimSpace_props (p : GoString) :
    (∀ c, c ∈ TrimSpace p → c ∈ p) ∧
    (∀ c, (TrimSpace p).head? = some c → isSpace c = false) ∧
    (∀ c, (TrimSpace p).getLast? = some c → isSpace c = false) := by
  unfold TrimSpace
  refine ⟨?_, ?_, ?_⟩
  · intro c h
    exact mem_of_mem_trimLeft p c (mem_of_mem_trimRight _ c h)
  · intro c h
    exact trimLeft_head p c (trimRight_head _ c h)
  · intro c h
    exact trimRight_getLast _ c h

/-- C19: a string value that contains a comma, or begins or ends with a white
space character, fails `in` with in-failed for every non-empty parameter. -/
theorem validateIn_unmatchable (s P name : GoString) (hP : P ≠ [])
    (hs : ',' ∈ s ∨ (∃ c, s.head? = some c ∧ isSpace c = true) ∨
      (∃ c, s.getLast? = some c ∧ isSpace c = true)) :
    validateIn (Value.str s) P name = some (NewValidationError ErrInValidationFailed name) := by
  have hlen : (Split ',' P).length ≠ 0 := by
    intro h; exact Split_ne_nil ',' P (List.length_eq_zero.mp h)
  have hv : validateIn (Value.str s) P name =
      if inStringLoop s (Split ',' P) then none
      else some (NewValidationError ErrInValidationFailed name) := by
    simp only [validateIn, hP, hlen, if_false]
  have hno : ¬ inStringLoop s (Split ',' P) = true := by
    rw [inStringLoop_iff]
    rintro ⟨piece, hmem, heq⟩
    have hp := TrimSpace_props piece
    rw [heq] at hp
    rcases hs with h | ⟨c, hc, hsp⟩ | ⟨c, hc, hsp⟩
    · exact (mem_of_mem_Split ',' P piece hmem ',' (hp.1 ',' h)).2 rfl
    · rw [hp.2.1 c hc] at hsp; cases hsp
    · rw [hp.2.2 c hc] at hsp; cases hsp
  rw [hv, if_neg hno]

/-- Witness of C19: "a,b" fails `in:a,b`, and "red " with a trailing blank
fails `in:red , red`. -/
theorem validateIn_unmatchable_witness :
    "a,b".toList ≠ [] ∧ ',' ∈ "a,b".toList ∧
    validateIn (Value.str "a,b".toList) "a,b".toList "F".toList =
      some (NewValidationError ErrInValidationFailed "F".toList) ∧
    validateIn (Value.str "red ".toList) "red , red".toList "F".toList =
      some (NewValidationError ErrInValidationFailed "F".toList) :=
  ⟨by decide, by decide,
    validateIn_unmatchable "a,b".toList "a,b".toList "F".toList (by decide)
      (Or.inl (by decide)),
    validateIn_unmatchable "red ".toList "red , red".toList "F".toList (by decide)
      (Or.inr (Or.inr ⟨' ', by decide, by decide⟩))⟩

/-- C20: `len`, `min` and `max` measure a string in bytes of its UTF-8
encoding, not in characters: a string of one two-byte character passes `len:2`
and `min:2`, fails `len:1` with len-failed and fails `max:1` with max-failed. -/
theorem rules_count_bytes (c : Char) (name : GoString) (hc : utf8Len c = 2) :
    List.length [c] = 1 ∧ byteLen [c] = 2 ∧
    validateLen (Value.str [c]) "2".toList name = none ∧
    validateLen (Value.str [c]) "1".toList name =
      some (NewValidationError ErrLenValidationFailed name) ∧
    validateMin (Value.str [c]) "2".toList name = none ∧
    validateMax (Value.str [c]) "1".toList name =
      some (NewValidationError ErrMaxValidationFailed name) := by
  have hb : byteLen [c] = 2 := by simp [byteLen, hc]
  have h1 : Atoi "1".toList = (1, none) := by decide
  have h2 : Atoi "2".toList = (2, none) := by decide
  refine ⟨rfl, hb, ?_, ?_, ?_, ?_⟩
  · simp only [validateLen, h2, hb]; simp
  · simp only [validateLen, h1, hb]; simp
  · simp only [validateMin, h2, hb]; simp
  · simp only [validateMax, h1, hb]; simp

/-- Witness of C20: the string "é", whose only character takes two bytes. -/
theorem rules_count_bytes_witness :
    utf8Len 'é' = 2 ∧
    validateLen (Value.str "é".toList) "2".toList "F".toList = none ∧
    validateLen (Value.str "é".toList) "1".toList "F".toList =
      some (NewValidationError ErrLenValidationFailed "F".toList) ∧
    validateMax (Value.str "é".toList) "1".toList "F".toList =
      some (NewValidationError ErrMaxValidationFailed "F".toList) :=
  ⟨by decide,
    (rules_count_bytes 'é' "F".toList (by decide)).2.2.1,
    (rules_count_bytes 'é' "F".toList (by decide)).2.2.2.1,
    (rules_count_bytes 'é' "F".toList (by decide)).2.2.2.2.2⟩

/-! ## Lists of options -/

theorem Split_sep_free (sep : Char) : ∀ s : GoString, sep ∉ s → Split sep s = [s] := by
  intro s
  induction s with
  | nil => intro _; rfl
  | cons c cs ih =>
    intro h
    simp only [List.mem_cons, not_or] at h
    have hc : c ≠ sep := fun e => h.1 e.symm
    simp only [Split, hc, if_false, ih h.2]

/-- Splitting is the inverse of joining: a non-empty list of pieces that hold
no separator is recovered from its join. -/
theorem Split_joinWith (sep : Char) : ∀ pieces : List GoString, pieces ≠ [] →
    (∀ p ∈ pieces, sep ∉ p) → Split sep (joinWith sep pieces) = pieces := by
  intro pieces
  induction pieces with
  | nil => intro h; exact absurd rfl h
  | cons p rest ih =>
    intro _ hfree
    cases rest with
    | nil => exact Split_sep_free sep p (hfree p (List.mem_cons_self _ _))
    | cons q rest2 =>
      have hrest := ih (by simp) (fun x hx => hfree x (List.mem_cons_of_mem _ hx))
      show Split sep (p ++ sep :: joinWith sep (q :: rest2)) = _
      rw [Split_append_sep, hrest, Split_sep_free sep p (hfree p (List.mem_cons_self _ _))]
      rfl

/-- Joining is the inverse of splitting. -/
theorem joinWith_Split (sep : Char) : ∀ s : GoString, joinWith sep (Split sep s) = s := by
  intro s
  induction s with
  | nil => rfl
  | cons c cs ih =>
    by_cases hc : c = sep
    · simp only [Split, hc, if_true]
      cases hs : Split sep cs with
      | nil => exact absurd hs (Split_ne_nil sep cs)
      | cons q qs =>
        rw [hs] at ih
        show [] ++ sep :: joinWith sep (q :: qs) = _
        rw [ih]
        rfl
    · simp only [Split, hc, if_false]
      cases hs : Split sep cs with
      | nil => exact absurd hs (Split_ne_nil sep cs)
      | cons q qs =>
        rw [hs] at ih
        cases qs with
        | nil =>
          show c :: q = c :: cs
          rw [show q = cs from ih]
        | cons q2 qs2 =>
          show (c :: q) ++ sep :: joinWith sep (q2 :: qs2) = c :: cs
          rw [← ih]
          rfl

theorem trimLeft_append_space : ∀ (ws y : GoString), (∀ c ∈ ws, isSpace c = true) →
    trimLeft (ws ++ y) = trimLeft y := by
  intro ws
  induction ws with
  | nil => intro y _; rfl
  | cons c cs ih =>
    intro y h
    simp only [List.cons_append, trimLeft, h c (List.mem_cons_self _ _), if_true]
    exact ih y (fun d hd => h d (List.mem_cons_of_mem _ hd))

theorem trimRight_all_space : ∀ s : GoString, (∀ c ∈ s, isSpace c = true) →
    trimRight s = [] := by
  intro s
  induction s with
  | nil => intro _; rfl
  | cons c cs ih =>
    intro h
    simp only [trimRight, ih (fun d hd => h d (List.mem_cons_of_mem _ hd)),
      h c (List.mem_cons_self _ _), if_true]

theorem trimRight_cons_of_nil (c : Char) (cs : GoString) (h : trimRight cs = []) :
    trimRight (c :: cs) = if isSpace c then [] else [c] := by
  simp only [trimRight, h]

theorem trimRight_cons_of_ne (c : Char) (cs : GoString) (h : trimRight cs ≠ []) :
    trimRight (c :: cs) = c :: trimRight cs := by
  cases hr : trimRight cs with
  | nil => exact absurd hr h
  | cons d ds => simp only [trimRight, hr]

theorem trimRight_append_space (ws : GoString) (hws : ∀ c ∈ ws, isSpace c = true) :
    ∀ core : GoString, core ≠ [] → (∀ c ∈ core.getLast?, isSpace c = false) →
      trimRight (core ++ ws) = core := by
  intro core
  induction core with
  | nil => intro h; exact absurd rfl h
  | cons c r ih =>
    intro _ hlast
    cases r with
    | nil =>
      have hc : isSpace c = false := hlast c (by simp)
      show trimRight (c :: ws) = [c]
      rw [trimRight_cons_of_nil c ws (trimRight_all_space ws hws), hc]
      rfl
    | cons d r2 =>
      have hrec : trimRight (d :: r2 ++ ws) = d :: r2 := ih (by simp) (by
        intro x hx
        exact hlast x (by rw [List.getLast?_cons_cons]; exact hx))
      show trimRight (c :: (d :: r2 ++ ws)) = c :: d :: r2
      rw [trimRight_cons_of_ne c _ (by rw [hrec]; simp), hrec]

/-- Trimming removes exactly the white space around a text that neither
begins nor ends with white space. -/
theorem TrimSpace_padded (o : ListedOption) (h : o.wellFormed) : TrimSpace o.text = o.core := by
  obtain ⟨hl, ht, _, hh, hg⟩ := h
  unfold TrimSpace ListedOption.text
  rw [List.append_assoc, trimLeft_append_space o.lead _ hl]
  cases hcore : o.core with
  | nil =>
    rw [List.nil_append, trimLeft_all_space o.trail ht]
    rfl
  | cons c r =>
    have hc : isSpace c = false := hh c (by rw [hcore]; simp)
    have hleft : trimLeft (c :: r ++ o.trail) = c :: r ++ o.trail := by
      simp only [List.cons_append, trimLeft, hc]
      rfl
    rw [hleft]
    exact trimRight_append_space o.trail ht (c :: r) (by simp) (by rw [← hcore]; exact hg)

theorem isSpace_comma : isSpace ',' = false := by decide

theorem text_comma_free (o : ListedOption) (h : o.wellFormed) : ',' ∉ o.text := by
  obtain ⟨hl, ht, hc, _, _⟩ := h
  unfold ListedOption.text
  simp only [List.mem_append, not_or]
  refine ⟨⟨?_, hc⟩, ?_⟩
  · intro hm
    have := hl ',' hm
    rw [isSpace_comma] at this
    cases this
  · intro hm
    have := ht ',' hm
    rw [isSpace_comma] at this
    cases this

/-- C8: on an `int` value `v` and a non-empty parameter `P`, `in` passes if and
only if some comma-separated piece of `P`, trimmed of surrounding white space,
is a base-10 literal denoting `v` within the signed 64-bit range; the pieces
that do not parse are skipped, so that otherwise the result is exactly
in-failed and never invalid-syntax. The pieces are the options of the list:
when `P` is written as options joined by commas, each a text with white space
around it, `in` passes if and only if the text of some option denotes `v`. -/
theorem validateIn_int (v : Int) (P name : GoString) (hP : P ≠ []) :
    (validateIn (Value.int v) P name = none ↔
      ∃ piece ∈ Split ',' P, decimalValue (TrimSpace piece) = some v ∧ inInt64 v) ∧
    ((¬ ∃ piece ∈ Split ',' P, decimalValue (TrimSpace piece) = some v ∧ inInt64 v) →
      validateIn (Value.int v) P name = some (NewValidationError ErrInValidationFailed name)) ∧
    validateIn (Value.int v) P name ≠ some (NewValidationError ErrInvalidValidatorSyntax name) ∧
    joinWith ',' (Split ',' P) = P ∧
    (∀ opts : List ListedOption, opts ≠ [] → (∀ o ∈ opts, o.wellFormed) →
      P = joinWith ',' (opts.map ListedOption.text) →
      (validateIn (Value.int v) P name = none ↔
        ∃ o ∈ opts, decimalValue o.core = some v ∧ inInt64 v) ∧
      (validateIn (Value.int v) P name ≠ none →
        validateIn (Value.int v) P name =
          some (NewValidationError ErrInValidationFailed name))) := by
  have hlen : (Split ',' P).length ≠ 0 := by
    intro h; exact Split_ne_nil ',' P (List.length_eq_zero.mp h)
  have hv : validateIn (Value.int v) P name =
      if inIntLoop v (Split ',' P) then none
      else some (NewValidationError ErrInValidationFailed name) := by
    simp only [validateIn, hP, hlen, if_false]
  have hiff : validateIn (Value.int v) P name = none ↔
      ∃ piece ∈ Split ',' P, decimalValue (TrimSpace piece) = some v ∧ inInt64 v := by
    rw [hv, ← inIntLoop_iff]
    by_cases h : inIntLoop v (Split ',' P) = true <;> simp [h]
  have hfail : validateIn (Value.int v) P name ≠ none →
      validateIn (Value.int v) P name =
        some (NewValidationError ErrInValidationFailed name) := by
    rw [hv]
    by_cases h : inIntLoop v (Split ',' P) = true <;> simp [h]
  refine ⟨hiff, ?_, ?_, joinWith_Split ',' P, ?_⟩
  · intro hno
    exact hfail (fun hn => hno (hiff.mp hn))
  · rw [hv]
    by_cases h : inIntLoop v (Split ',' P) = true <;> simp [h, NewValidationError]
  · intro opts hne hwf hjoin
    have hsplit : Split ',' P = opts.map ListedOption.text := by
      rw [hjoin]
      apply Split_joinWith
      · intro hc
        exact hne (List.map_eq_nil_iff.mp hc)
      · intro p hp
        obtain ⟨o, ho, rfl⟩ := List.mem_map.mp hp
        exact text_comma_free o (hwf o ho)
    refine ⟨?_, hfail⟩
    rw [hiff, hsplit]
    constructor
    · rintro ⟨piece, hp, hd, hr⟩
      obtain ⟨o, ho, rfl⟩ := List.mem_map.mp hp
      rw [TrimSpace_padded o (hwf o ho)] at hd
      exact ⟨o, ho, hd, hr⟩
    · rintro ⟨o, ho, hd, hr⟩
      refine ⟨o.text, List.mem_map.mpr ⟨o, ho, rfl⟩, ?_, hr⟩
      rw [TrimSpace_padded o (hwf o ho)]
      exact hd

/-- Witness of C8: 2 passes `in:1,2,3`, and 7 passes `in:1, 7 ,x` and
`in:1, 7`, whose option 7 is padded with blanks; 7 fails `in:1,2,3` with
in-failed, 12 fails `in:1,2`, and 7 fails `in:abc,x`, none of whose pieces
parses. -/
theorem validateIn_int_witness :
    "1,2,3".toList ≠ [] ∧
    validateIn (Value.int 2) "1,2,3".toList "F".toList = none ∧
    validateIn (Value.int 7) "1, 7 ,x".toList "F".toList = none ∧
    validateIn (Value.int 7) "1, 7".toList "F".toList = none ∧
    validateIn (Value.int 7) "1,2,3".toList "F".toList =
      some (NewValidationError ErrInValidationFailed "F".toList) ∧
    validateIn (Value.int 12) "1,2".toList "F".toList =
      some (NewValidationError ErrInValidationFailed "F".toList) ∧
    validateIn (Value.int 7) "abc,x".toList "F".toList =
      some (NewValidationError ErrInValidationFailed "F".toList) :=
  ⟨by decide,
    (validateIn_int 2 "1,2,3".toList "F".toList (by decide)).1.mpr (by decide),
    ((validateIn_int 7 "1, 7 ,x".toList "F".toList (by decide)).2.2.2.2
      [{ lead := [], core := "1".toList, trail := [] },
        { lead := " ".toList, core := "7".toList, trail := " ".toList },
        { lead := [], core := "x".toList, trail := [] }]
      (by simp) (by simp [ListedOption.wellFormed, isSpace]) (by decide)).1.mpr
      ⟨{ lead := " ".toList, core := "7".toList, trail := " ".toList }, by simp, by decide,
        by decide⟩,
    by decide,
    (validateIn_int 7 "1,2,3".toList "F".toList (by decide)).2.1 (by decide),
    (validateIn_int 12 "1,2".toList "F".toList (by decide)).2.1 (by decide),
    by decide⟩

end Homework
